import Mathlib

/-!
Verification of the sticky-note application's core logic (`sticky_note.py`):
the Markdown render/recover round-trip engine, the task index, the legacy
data migration, the debounced autosave, the note-store mutations and the
font-size clamp.  Python string and regex operations are embedded as
executable functions on `List Char` / `String`; external collaborators
(the Qt rich-text converter, the markdown engine, pygments, QDate) are
either parameters constrained by their documented contracts or modelled
from the specification where noted.
-/

namespace StickyNote

/-- Whitespace class of Python's `\s` and `str.strip` (ASCII range). -/
def pyWs (c : Char) : Bool :=
  c = ' ' || c = '\t' || c = '\n' || c = '\r' || c = '\x0b' || c = '\x0c'

/-- Python `str.strip()` on a character list. -/
def pyStripChars (cs : List Char) : List Char :=
  ((cs.dropWhile pyWs).reverse.dropWhile pyWs).reverse

/-- Python `str.strip()`. -/
def pyStrip (s : String) : String :=
  String.mk (pyStripChars s.data)

/-- Decidable check that `p` is a prefix of `cs` (Python `startswith`). -/
def isPrefCh : List Char → List Char → Bool
  | [], _ => true
  | _ :: _, [] => false
  | p :: ps, c :: cs => p = c && isPrefCh ps cs

/-- Python `str.startswith`. -/
def startsWithStr (s pre : String) : Bool :=
  isPrefCh pre.data s.data

/-- Python substring test `pat in cs`. -/
def containsSub : List Char → List Char → Bool
  | [], pat => pat.isEmpty
  | c :: cs, pat => isPrefCh pat (c :: cs) || containsSub cs pat

/-- Python `pat in s`. -/
def containsStr (s pat : String) : Bool :=
  containsSub s.data pat.data

/-- Python `s.replace(old, new, 1)` on character lists (first occurrence only). -/
def replaceFirstCh : List Char → List Char → List Char → List Char
  | [], _, _ => []
  | c :: cs, old, new =>
    if isPrefCh old (c :: cs) then new ++ (c :: cs).drop old.length
    else c :: replaceFirstCh cs old new

/-- Python `s.replace(old, new, 1)`. -/
def replaceFirst (s old new : String) : String :=
  String.mk (replaceFirstCh s.data old.data new.data)

/-- Python `s.split('\n')` on character lists. -/
def splitNlChars : List Char → List (List Char)
  | [] => [[]]
  | c :: cs =>
    if c = '\n' then [] :: splitNlChars cs
    else
      match splitNlChars cs with
      | l :: ls => (c :: l) :: ls
      | [] => [[c]]

/-- Python `s.split('\n')`. -/
def splitNl (s : String) : List String :=
  (splitNlChars s.data).map String.mk

/-- Python `'\n'.join(ls)` on character lists. -/
def joinNlChars : List (List Char) → List Char
  | [] => []
  | [l] => l
  | l :: ls => l ++ '\n' :: joinNlChars ls

/-- Python `'\n'.join(ls)`. -/
def joinNl (ls : List String) : String :=
  String.mk (joinNlChars (ls.map String.data))

/-- The backtick character (0x60). -/
def btick : Char := Char.ofNat 96

/-- The three-character code fence marker. -/
def fenceChars : List Char := [btick, btick, btick]

/-- Earliest occurrence of the fence marker: returns the characters before
the marker and the characters after it (the lazy part of `[\s\S]*?` followed
by the closing fence in the snapshot regex). -/
def findTriple : List Char → Option (List Char × List Char)
  | [] => none
  | c :: t =>
    if isPrefCh fenceChars (c :: t) then some ([], t.drop 2)
    else
      match findTriple t with
      | some p => some (c :: p.1, p.2)
      | none => none

/-- Scanner for `re.findall(r'```[\s\S]*?```', s)`: fuelled left-to-right
scan that, at each position, matches an opening fence followed lazily by a
closing fence, and otherwise advances one character. -/
def findFencesAux : Nat → List Char → List (List Char)
  | 0, _ => []
  | _ + 1, [] => []
  | fuel + 1, c :: t =>
    if isPrefCh fenceChars (c :: t) then
      match findTriple (t.drop 2) with
      | some (mid, rest) => (fenceChars ++ mid ++ fenceChars) :: findFencesAux fuel rest
      | none => findFencesAux fuel t
    else findFencesAux fuel t

/-- `re.findall(r'```[\s\S]*?```', s)`. -/
def codeBlocksOf (s : String) : List String :=
  (findFencesAux s.data.length s.data).map String.mk

/-- Snapshot of original fenced code blocks taken on entering rendered mode
(`self._original_code_blocks = re.findall(r'```[\s\S]*?```', ...)`). -/
def originalCodeBlocks (src : String) : List String :=
  codeBlocksOf src

/-- Indices (from `start`) of the whitespace-only lines in a line list. -/
def emptyIdxsFrom : Nat → List String → List Nat
  | _, [] => []
  | i, l :: ls =>
    (if pyStrip l = "" then [i] else []) ++ emptyIdxsFrom (i + 1) ls

/-- Snapshot of blank-line positions taken on entering rendered mode
(`self._original_empty_lines = [i for i, line in enumerate(...) if line.strip() == '']`). -/
def originalEmptyLines (src : String) : List Nat :=
  emptyIdxsFrom 0 (splitNl src)

/-- The negative-lookahead body `[-*+]|\d+\.` of the leading-indent regex:
true when the text starts with a list marker or an ordered-list number. -/
def markerAt (cs : List Char) : Bool :=
  match cs with
  | [] => false
  | c :: _ =>
    if c = '-' || c = '*' || c = '+' then true
    else
      let ds := cs.takeWhile Char.isDigit
      !ds.isEmpty && (cs.drop ds.length).head? = some '.'

/-- Matching of `re.match(r'^[ ]{1,4}(?![-*+]|\d+\.)', line)`: some count of
1 to 4 leading spaces after which the text does not begin with a list
marker (regex backtracking tries every count). -/
def matchIndent (cs : List Char) : Bool :=
  [1, 2, 3, 4].any fun j => isPrefCh (List.replicate j ' ') cs && !markerAt (cs.drop j)

/-- Step 0 of the line-by-line rewrite: strip the leading indent Qt's
`toMarkdown` injects (`processed_line.lstrip(' ')`) when the indent regex
matches and the line is not blank. -/
def stripLeadingIndent (line : String) : String :=
  if matchIndent line.data && !(pyStrip line = "") then
    String.mk (line.data.dropWhile (· = ' '))
  else line

/-- Whether the tail of the quote-artifact regex `(?:\|)?\s*$` matches. -/
def quoteEndOk (cs : List Char) : Bool :=
  cs.all pyWs ||
    (match cs with
     | c :: t => c = '|' && t.all pyWs
     | [] => false)

/-- The lazy group `(.*?)` of the quote-artifact regex: the shortest prefix
whose remainder matches `(?:\|)?\s*$` (the dot cannot cross a newline). -/
def quoteTail : List Char → Option (List Char)
  | [] => some []
  | c :: t =>
    if quoteEndOk (c :: t) then some []
    else if c = '\n' then none
    else (quoteTail t).map (c :: ·)

/-- `re.match(r'^\|\s*\|\s*\|\s*(.*?)(?:\|)?\s*$', line)`, returning the
captured group. -/
def quoteMatch (s : String) : Option String :=
  match s.data with
  | c1 :: r1 =>
    if c1 = '|' then
      match r1.dropWhile pyWs with
      | c2 :: r2 =>
        if c2 = '|' then
          match r2.dropWhile pyWs with
          | c3 :: r3 =>
            if c3 = '|' then (quoteTail (r3.dropWhile pyWs)).map String.mk
            else none
          | [] => none
        else none
      | [] => none
    else none
  | [] => none

/-- `re.match(r'^[\s\-\|]+$', line) and '-' in line`: a table-separator
artifact row, dropped entirely during recovery. -/
def sepLine (s : String) : Bool :=
  !s.data.isEmpty && s.data.all (fun c => pyWs c || c = '-' || c = '|') && s.data.contains '-'

/-- Tail of the checkbox-link alternative: `\]\(checkbox:\d+\)`. -/
def closeCk (cs : List Char) : Option (List Char) :=
  if isPrefCh "](checkbox:".data cs then
    let rest := cs.drop 11
    let ds := rest.takeWhile Char.isDigit
    if ds.isEmpty then none
    else
      match rest.drop ds.length with
      | c :: r => if c = ')' then some r else none
      | [] => none
  else none

/-- Lazy scan of `.*?` inside `\[.*?\]\(checkbox:\d+\)` (a dot cannot match
a newline); returns the remainder after the whole alternative. -/
def linkScan : List Char → Option (List Char)
  | [] => none
  | c :: t =>
    match closeCk (c :: t) with
    | some r => some r
    | none => if c = '\n' then none else linkScan t

/-- First alternative of the checkbox pattern: `\[.*?\]\(checkbox:\d+\)`. -/
def linkAlt (cs : List Char) : Option (List Char) :=
  match cs with
  | c :: t => if c = '[' then linkScan t else none
  | [] => none

/-- Alternatives `\[.*?\]\(checkbox:\d+\)|☑︎?|\[x\]` of the checked
checkbox pattern, tried left to right. -/
def altChecked (cs : List Char) : Option (List Char) :=
  match linkAlt cs with
  | some r => some r
  | none =>
    match cs with
    | '☑' :: '︎' :: r => some r
    | '☑' :: r => some r
    | '[' :: 'x' :: ']' :: r => some r
    | _ => none

/-- Alternatives `\[.*?\]\(checkbox:\d+\)|☐︎?|\[ \]` of the unchecked
checkbox pattern, tried left to right. -/
def altUnchecked (cs : List Char) : Option (List Char) :=
  match linkAlt cs with
  | some r => some r
  | none =>
    match cs with
    | '☐' :: '︎' :: r => some r
    | '☐' :: r => some r
    | '[' :: ' ' :: ']' :: r => some r
    | _ => none

/-- `re.sub(r'^\s*(\*|-|\+)?\s*(?:ALT)\s*', '', line)`: anchored match of
optional whitespace, an optional single bullet (with regex backtracking to
the no-bullet branch when the alternative fails after the bullet), the
alternative, and trailing whitespace; on success the match is removed. -/
def cleanCB (alt : List Char → Option (List Char)) (s : String) : String :=
  let cs1 := s.data.dropWhile pyWs
  let attempt : List Char → Option (List Char) := fun l => (alt l).map (·.dropWhile pyWs)
  let res : Option (List Char) :=
    match cs1 with
    | c :: rest =>
      if c = '*' || c = '-' || c = '+' then
        match attempt (rest.dropWhile pyWs) with
        | some r => some r
        | none => attempt cs1
      else attempt cs1
    | [] => attempt []
  match res with
  | some r => String.mk r
  | none => s

/-- Steps 1–3 of the line rewrite applied to a line outside code blocks:
leading-indent strip, blockquote table-artifact handling (using the
original line for the separator test), checkbox restoration, and quote
prefixing; `none` means the line is dropped. -/
def processNonCode (line : String) : Option String :=
  let p1 := stripLeadingIndent line
  let cbStep : String → String := fun p =>
    if p.data.contains '☑' then "- [x] " ++ cleanCB altChecked p
    else if p.data.contains '☐' then "- [ ] " ++ cleanCB altUnchecked p
    else p
  match quoteMatch p1 with
  | some content =>
    if sepLine line then none
    else some ("> " ++ cbStep content)
  | none => some (cbStep p1)

/-- The main line loop of `get_markdown_from_rendered`: tracks fenced-code
state, replaces each closed fenced region with the next unconsumed snapshot
entry (or keeps the converted text plus the closing fence when snapshots
are exhausted), and rewrites lines outside code blocks. -/
def recoverLoop (blocks : List String) : List String → Bool → List String → Nat → List String
  | [], _, _, _ => []
  | line :: rest, inCode, codeLines, idx =>
    if !inCode && startsWithStr (pyStrip line) "```" then
      recoverLoop blocks rest true [line] idx
    else if inCode then
      if pyStrip line = "```" then
        match blocks.get? idx with
        | some b => b :: recoverLoop blocks rest false [] (idx + 1)
        | none => joinNl (codeLines ++ [line]) :: recoverLoop blocks rest false [] idx
      else recoverLoop blocks rest true (codeLines ++ [line]) idx
    else
      match processNonCode line with
      | some out => out :: recoverLoop blocks rest false [] idx
      | none => recoverLoop blocks rest false [] idx

/-- Global substitution `re.sub(r'\n\s*\n', '\n', s)`: each match starts at
a newline whose following whitespace run contains another newline and ends,
by greedy backtracking, at the last newline of that run; characters inside
a match are dropped and its final newline is kept.  The flag records being
inside a match. -/
def collapseGo : Bool → List Char → List Char
  | _, [] => []
  | false, c :: cs =>
    if c = '\n' && (cs.takeWhile pyWs).contains '\n' then collapseGo true cs
    else c :: collapseGo false cs
  | true, c :: cs =>
    if c = '\n' && !(cs.takeWhile pyWs).contains '\n' then '\n' :: collapseGo false cs
    else collapseGo true cs

/-- `re.sub(r'\n\s*\n', '\n', s)`. -/
def collapseNl (s : String) : String :=
  String.mk (collapseGo false s.data)

/-- Length of the consecutive run of indices starting at `i` that are all
members of `es` (the inner `while orig_idx in empties` loop); fuelled by
the list length, which each iteration strictly decreases. -/
def blankRunAux : Nat → List Nat → Nat → Nat
  | 0, _, _ => 0
  | fuel + 1, es, i =>
    if es.contains i then blankRunAux fuel (es.erase i) (i + 1) + 1 else 0

/-- Number of blank lines inserted before the next content line. -/
def blankRun (es : List Nat) (i : Nat) : Nat :=
  blankRunAux es.length es i

/-- The blank-line restoration loop: before each content line, insert a
blank line for every consecutive original index recorded as blank; after
the last content line, append trailing blanks likewise. -/
def restoreLines (es : List Nat) : Nat → List String → List String
  | i, [] => List.replicate (blankRun es i) ""
  | i, l :: ls =>
    List.replicate (blankRun es i) "" ++
      l :: restoreLines es (i + blankRun es i + 1) ls

/-- Placeholder `__CODE_BLOCK_{i}__` protecting code blocks from the
blank-line passes. -/
def phName (i : Nat) : String :=
  "__CODE_BLOCK_" ++ toString i ++ "__"

/-- A pure string-processing embedding of `get_markdown_from_rendered`, from
the generically converted draft `md` to the recovered Markdown source:
underline re-wrapping, the line-by-line corrective rewrite, code-block
protection, blank-line collapse and restoration, code-block restoration,
and the final strip. -/
def getMarkdownFromRendered (md : String) (blocks : List String)
    (empties : List Nat) (uls : List String) : String :=
  let md1 := uls.foldl
    (fun m t =>
      if containsStr m t && !containsStr m ("<u>" ++ t ++ "</u>") then
        replaceFirst m t ("<u>" ++ t ++ "</u>")
      else m)
    md
  let lines := splitNl md1
  let newLines := recoverLoop blocks lines false [] 0
  let result0 := joinNl newLines
  let prot := codeBlocksOf result0
  let result1 := prot.enum.foldl (fun r p => replaceFirst r p.2 (phName p.1)) result0
  let result2 := collapseNl result1
  let result3 :=
    if empties.isEmpty then result2
    else joinNl (restoreLines empties 0 (splitNl result2))
  let result4 := prot.enum.foldl (fun r p => replaceFirst r (phName p.1) p.2) result3
  pyStrip result4

/-! ## Task index (`update_calendar_marks`) -/

/-- A note record `{title, content, created, modified}`. -/
structure NoteRec where
  title : String
  content : String
  created : String
  modified : String
deriving DecidableEq, Repr

/-- The `settings` object; `last_note_id` may be absent. -/
structure StoreSettings where
  lastNoteId : Option String
deriving DecidableEq, Repr

/-- The persisted store `{notes, settings}`; the notes dictionary is an
association list in insertion order with unique keys. -/
structure StoreData where
  notes : List (String × NoteRec)
  settings : StoreSettings
deriving DecidableEq, Repr

/-- Python `\w` (ASCII word characters). -/
def isWordCh (c : Char) : Bool :=
  c.isAlphanum || c = '_'

/-- Anchored match of `@\w+\([^)]+\)` returning the remainder after the
match. -/
def atTagAt (cs : List Char) : Option (List Char) :=
  match cs with
  | c :: t =>
    if c = '@' then
      let w := t.takeWhile isWordCh
      if w.isEmpty then none
      else
        match t.drop w.length with
        | c2 :: r =>
          if c2 = '(' then
            let b := r.takeWhile (fun x => !(x = ')'))
            if b.isEmpty then none
            else
              match r.drop b.length with
              | c3 :: rest => if c3 = ')' then some rest else none
              | [] => none
          else none
        | [] => none
    else none
  | [] => none

/-- Global substitution `re.sub(r'@\w+\([^)]+\)', '', line)`: fuelled
left-to-right scan removing every tag match. -/
def stripAtTagsCh : Nat → List Char → List Char
  | 0, cs => cs
  | _ + 1, [] => []
  | fuel + 1, c :: t =>
    match atTagAt (c :: t) with
    | some rest => stripAtTagsCh fuel rest
    | none => c :: stripAtTagsCh fuel t

/-- `re.sub(r'@\w+\([^)]+\)', '', line)`. -/
def stripAtTags (s : String) : String :=
  String.mk (stripAtTagsCh s.data.length s.data)

/-- `re.sub(r'^[-\s]*\[.\]\s*', '', s)`: an anchored run of dashes and
whitespace, a bracketed single character, and trailing whitespace. -/
def stripMarkerLead (s : String) : String :=
  let run := s.data.takeWhile (fun c => c = '-' || pyWs c)
  match s.data.drop run.length with
  | c1 :: c2 :: c3 :: rest =>
    if c1 = '[' && !(c2 = '\n') && c3 = ']' then String.mk (rest.dropWhile pyWs) else s
  | _ => s

/-- `re.sub(r'^[☐☑]\s*', '', s)`. -/
def stripGlyphLead (s : String) : String :=
  match s.data with
  | c :: t => if c = '☐' || c = '☑' then String.mk (t.dropWhile pyWs) else s
  | [] => s

/-- The display text of a task line: tag removal, then marker removal, then
glyph removal, each followed by a strip. -/
def taskNameOf (line : String) : String :=
  pyStrip (stripGlyphLead (pyStrip (stripMarkerLead (pyStrip (stripAtTags line)))))

/-- A line qualifies as a task line when its stripped form starts with one
of the recognized checklist markers. -/
def isTaskLine (line : String) : Bool :=
  ["- [ ]", "- [x]", "- [X]", "☐", "☑"].any fun m => startsWithStr (pyStrip line) m

/-- Exactly `n` digit characters. -/
def takeDigits : Nat → List Char → Option (List Char × List Char)
  | 0, cs => some ([], cs)
  | _ + 1, [] => none
  | n + 1, c :: cs =>
    if c.isDigit then (takeDigits n cs).map (fun p => (c :: p.1, p.2)) else none

/-- The date group `\d{4}-\d{2}-\d{2}`. -/
def dateShapeAt (cs : List Char) : Option (List Char × List Char) :=
  match takeDigits 4 cs with
  | some (y, r1) =>
    (match r1 with
     | c1 :: r2 =>
       if c1 = '-' then
         match takeDigits 2 r2 with
         | some (m, r3) =>
           (match r3 with
            | c2 :: r4 =>
              if c2 = '-' then
                match takeDigits 2 r4 with
                | some (d, r5) => some (y ++ '-' :: m ++ '-' :: d, r5)
                | none => none
              else none
            | [] => none)
         | none => none
       else none
     | [] => none)
  | none => none

/-- Anchored match of `TAG(\d{4}-\d{2}-\d{2})`, returning the date group. -/
def tagDateAt (tag : List Char) (cs : List Char) : Option String :=
  if isPrefCh tag cs then
    match dateShapeAt (cs.drop tag.length) with
    | some (d, rest) =>
      (match rest with
       | c :: _ => if c = ')' then some (String.mk d) else none
       | [] => none)
    | none => none
  else none

/-- `re.search(r'TAG\((\d{4}-\d{2}-\d{2})\)', line)`: first match wins. -/
def searchTagDate (tag : List Char) : List Char → Option String
  | [] => none
  | c :: t =>
    match tagDateAt tag (c :: t) with
    | some d => some d
    | none => searchTagDate tag t

/-- The task-index entries `(date, note_title, task_name, is_due)`
contributed by one content line (a due entry, then a start entry). -/
def lineEntries (title line : String) : List (String × String × String × Bool) :=
  if isTaskLine line then
    (match searchTagDate "@due(".data line.data with
     | some d => [(d, title, taskNameOf line, true)]
     | none => []) ++
    (match searchTagDate "@start(".data line.data with
     | some d => [(d, title, taskNameOf line, false)]
     | none => [])
  else []

/-- All task-index entries of the note store, in insertion order (the
flattened contents of the `task_dates` dictionary built by
`update_calendar_marks`). -/
def taskEntries (notes : List (String × NoteRec)) :
    List (String × String × String × Bool) :=
  notes.flatMap fun p => (splitNl p.2.content).flatMap fun line => lineEntries p.2.title line

/-- Modelled from the spec: calendar-date validation performed by the
external calendar widget (`QDate.fromString(s, "yyyy-MM-dd")` followed by
`isValid()`), which is not part of the repository: a Gregorian calendar
date with a nonzero year, a month between 1 and 12 and a day within the
month's length. -/
def isLeapYear (y : Nat) : Bool :=
  (y % 4 = 0 && !(y % 100 = 0)) || y % 400 = 0

/-- Modelled from the spec: month lengths of the external calendar. -/
def daysInMonth (y m : Nat) : Nat :=
  if m = 2 then (if isLeapYear y then 29 else 28)
  else if m = 4 || m = 6 || m = 9 || m = 11 then 30
  else 31

/-- Numeric value of a digit string. -/
def digitsToNat (cs : List Char) : Nat :=
  cs.foldl (fun acc c => acc * 10 + (c.toNat - 48)) 0

/-- Modelled from the spec: parse `yyyy-MM-dd` strictly. -/
def parseYmd (s : String) : Option (Nat × Nat × Nat) :=
  match s.data with
  | [y1, y2, y3, y4, h1, m1, m2, h2, d1, d2] =>
    if [y1, y2, y3, y4, m1, m2, d1, d2].all Char.isDigit && h1 = '-' && h2 = '-' then
      some (digitsToNat [y1, y2, y3, y4], digitsToNat [m1, m2], digitsToNat [d1, d2])
    else none
  | _ => none

/-- Modelled from the spec: `QDate.fromString(s, "yyyy-MM-dd").isValid()`. -/
def isValidDateStr (s : String) : Bool :=
  match parseYmd s with
  | some (y, m, d) =>
    !(y = 0) && 1 ≤ m && m ≤ 12 && 1 ≤ d && d ≤ daysInMonth y m
  | none => false

/-- First occurrences of the keys of the `task_dates` dictionary, in
insertion order. -/
def firstOccurAux : List String → List String → List String
  | _, [] => []
  | seen, d :: rest =>
    if seen.contains d then firstOccurAux seen rest
    else d :: firstOccurAux (d :: seen) rest

/-- The calendar marks produced from the task index: one mark per distinct
date that passes calendar validation, colored by whether the date carries
due entries, start entries, or both. -/
def calendarMarks (notes : List (String × NoteRec)) : List (String × String) :=
  let entries := taskEntries notes
  (firstOccurAux [] (entries.map (·.1))).filterMap fun d =>
    if isValidDateStr d then
      let tasks := entries.filter (fun e => e.1 = d)
      let hasDue := tasks.any (fun e => e.2.2.2)
      let hasStart := tasks.any (fun e => !e.2.2.2)
      some (d, if hasDue && hasStart then "#c678dd"
               else if hasDue then "#e06c75" else "#61afef")
    else none

/-! ## Legacy migration (`migrate_old_data`) -/

/-- A legacy entry is migrated when its content is non-empty and does not
strip to the empty string (`if content and content.strip()`). -/
def legacyKeep (e : String × String) : Bool :=
  !(e.2 = "") && !(pyStrip e.2 = "")

/-- The migrated content: the 16-character `MARKDOWN_SOURCE:` marker is
stripped when present (`content[16:]`). -/
def legacyContent (c : String) : String :=
  if startsWithStr c "MARKDOWN_SOURCE:" then String.mk (c.data.drop 16) else c

/-- The note record created for one legacy date entry. -/
def legacyNote (e : String × String) : NoteRec :=
  ⟨"便签 (" ++ e.1 ++ ")", legacyContent e.2, e.1, e.1⟩

/-- One iteration of the migration loop: skip empty entries, otherwise
create a note under a fresh id and record it as the current note. -/
def migrateStep (gen : Nat → String) (acc : StoreData × Nat)
    (e : String × String) : StoreData × Nat :=
  if legacyKeep e then
    ({ notes := acc.1.notes ++ [(gen acc.2, legacyNote e)],
       settings := { lastNoteId := some (gen acc.2) } }, acc.2 + 1)
  else acc

/-- The legacy-format migration: one note per non-empty date entry, with
the `MARKDOWN_SOURCE:` marker stripped, titled from the date, and the last
created note recorded as current.  Fresh ids are supplied by `gen` applied
to a running counter. -/
def migrateOldData (old : List (String × String)) (gen : Nat → String) : StoreData :=
  (old.foldl (migrateStep gen)
    ({ notes := [], settings := { lastNoteId := none } }, 0)).1

/-! ## Note controller state machine -/

/-- The controller state: the in-memory store, the id of the open note, the
text currently held by the editor, and the log of store snapshots written
to disk by `save_data` (most recent first). -/
structure AppState where
  data : StoreData
  currentNoteId : Option String
  editorText : String
  disk : List StoreData
deriving DecidableEq, Repr

/-- `save_data`: persist the current in-memory store. -/
def saveData (st : AppState) : AppState :=
  { st with disk := st.data :: st.disk }

/-- Dictionary lookup in the notes map. -/
def lookupNote (d : StoreData) (nid : String) : Option NoteRec :=
  (d.notes.find? (fun p => p.1 = nid)).map (·.2)

/-- `load_note`: a no-op for an unknown id; otherwise opens the note and
records it as `last_note_id` (without writing to disk). -/
def loadNote (st : AppState) (nid : String) : AppState :=
  match lookupNote st.data nid with
  | none => st
  | some n =>
    { st with
      currentNoteId := some nid
      editorText := n.content
      data := { st.data with settings := { lastNoteId := some nid } } }

/-- `create_new_note`: a no-op when the dialog is cancelled or the title
strips to empty; otherwise inserts an empty record, opens it, and saves. -/
def createNewNote (st : AppState) (title : String) (ok : Bool)
    (newId now : String) : AppState :=
  if !ok || pyStrip title = "" then st
  else
    let st1 :=
      { st with data := { st.data with
          notes := st.data.notes ++ [(newId, ⟨pyStrip title, "", now, now⟩)] } }
    saveData (loadNote st1 newId)

/-- `perform_save`: write the editor text into the open note and persist
the store; a no-op when no valid note is open. -/
def performSave (st : AppState) (now : String) : AppState :=
  match st.currentNoteId with
  | none => st
  | some c =>
    if (lookupNote st.data c).isSome then
      saveData { st with data := { st.data with
        notes := st.data.notes.map fun p =>
          if p.1 = c then (p.1, { p.2 with content := st.editorText, modified := now })
          else p } }
    else st

/-- `delete_current_note`: after confirmation, remove the open note, write
the store to disk, and then open the first remaining note (or create a new
one when none remain). -/
def deleteCurrentNote (st : AppState) (confirmed : Bool)
    (newTitle : String) (newOk : Bool) (newId now : String) : AppState :=
  match st.currentNoteId with
  | none => st
  | some c =>
    if (lookupNote st.data c).isNone then st
    else if !confirmed then st
    else
      let notes2 := st.data.notes.filter (fun p => !(p.1 = c))
      let st1 := saveData { st with data := { st.data with notes := notes2 } }
      match notes2 with
      | [] => createNewNote st1 newTitle newOk newId now
      | (k, _) :: _ => loadNote st1 k

/-- `switch_note`: an immediate synchronous save followed by loading the
target note. -/
def switchNote (st : AppState) (nid now : String) : AppState :=
  loadNote (performSave st now) nid

/-! ## Debounced autosave (`save_timer`) -/

/-- The two observable autosave triggers: a content-changed event (which
restarts the single-shot 2-unit timer) and a note switch (which performs an
immediate synchronous save). -/
inductive SaveEv
  | edit
  | switch
deriving DecidableEq, Repr

/-- The timer state: the pending single-shot deadline, the times of
immediate writes, and the times of deferred (timer) writes. -/
structure TimerState where
  deadline : Option Nat
  immWrites : List Nat
  defWrites : List Nat
deriving DecidableEq, Repr

/-- A pending timer whose deadline has been reached fires (one deferred
write) before the next event is handled. -/
def fireIfDue (t : Nat) (s : TimerState) : TimerState :=
  match s.deadline with
  | some d =>
    if d ≤ t then { s with deadline := none, defWrites := s.defWrites ++ [d] }
    else s
  | none => s

/-- One event step: `edit` restarts the timer to `t + 2`
(`save_timer.start()`); `switch` performs an immediate write
(`perform_save`) and leaves any pending timer running, exactly as
`switch_note` does. -/
def stepEv (s : TimerState) (e : Nat × SaveEv) : TimerState :=
  let s1 := fireIfDue e.1 s
  match e.2 with
  | .edit => { s1 with deadline := some (e.1 + 2) }
  | .switch => { s1 with immWrites := s1.immWrites ++ [e.1] }

/-- After the last event, a still-pending timer eventually fires. -/
def flushTimer (s : TimerState) : TimerState :=
  match s.deadline with
  | some d => { s with deadline := none, defWrites := s.defWrites ++ [d] }
  | none => s

/-- Run a chronologically ordered event trace from the idle state. -/
def runTrace (evs : List (Nat × SaveEv)) : TimerState :=
  flushTimer (evs.foldl stepEv ⟨none, [], []⟩)

/-! ## Syntax highlighting (`highlight_code`) -/

/-- The pygments lexers reachable from `highlight_code`. -/
inductive PyLexer
  | textLexer
  | named (lang : String)
  | guessed (code : String)
deriving DecidableEq, Repr

/-- Python `try/except ClassNotFound` over an `Except`-modelled call. -/
def tryCNF (m : Except Unit PyLexer) (handler : Except Unit PyLexer) :
    Except Unit PyLexer :=
  match m with
  | .ok a => .ok a
  | .error _ => handler

/-- The lexer selection of `highlight_code`: `get_lexer_by_name` when a
language is given, otherwise `guess_lexer` with an inner fallback to
`TextLexer`; the outer handler also falls back to `TextLexer`. -/
def chooseLexer (getL guessL : String → Except Unit PyLexer)
    (code lang : String) : Except Unit PyLexer :=
  tryCNF
    (if !(lang = "") then getL lang
     else tryCNF (guessL code) (Except.ok PyLexer.textLexer))
    (Except.ok PyLexer.textLexer)

/-- `highlight_code(code, lang, attrs)` with the external collaborators as
parameters: select a lexer (exceptions handled as in the source) and run
the highlighter; the result is an `Except` so that an unhandled exception
would be observable. -/
def highlightCodeRun (getL guessL : String → Except Unit PyLexer)
    (hl : String → PyLexer → String) (code lang : String) : Except Unit String :=
  match chooseLexer getL guessL code lang with
  | .ok l => .ok (hl code l)
  | .error e => .error e

/-! ## Font size clamp (`adjust_font_size`) -/

/-- `adjust_font_size(delta)`: add the delta and clamp below at 6. -/
def adjustFontSize (fontSize delta : Int) : Int :=
  let f := fontSize + delta
  if f < 6 then 6 else f

/-! ## Supporting lemmas -/

/-- Folding consecutive in-window edits over a running timer only moves the
deadline to two units past the last edit. -/
lemma foldl_edits (ts : List Nat) : ∀ (t : Nat) (im dw : List Nat),
    List.Chain' (fun a b => a ≤ b ∧ b < a + 2) (t :: ts) →
    (ts.map (fun x => (x, SaveEv.edit))).foldl stepEv ⟨some (t + 2), im, dw⟩ =
      ⟨some ((t :: ts).getLast (by simp) + 2), im, dw⟩ := by
  induction ts with
  | nil => intro t im dw _; simp
  | cons t1 ts ih =>
    intro t im dw hch
    have h1 : t ≤ t1 ∧ t1 < t + 2 := (List.chain'_cons.mp hch).1
    have h2 : List.Chain' (fun a b => a ≤ b ∧ b < a + 2) (t1 :: ts) :=
      (List.chain'_cons.mp hch).2
    have hstep : stepEv ⟨some (t + 2), im, dw⟩ (t1, SaveEv.edit) =
        ⟨some (t1 + 2), im, dw⟩ := by
      simp only [stepEv, fireIfDue]
      rw [if_neg (by omega)]
    have hlast : (t :: t1 :: ts).getLast (by simp) = (t1 :: ts).getLast (by simp) := by
      simp [List.getLast_cons]
    rw [List.map_cons, List.foldl_cons, hstep, ih t1 im dw h2, hlast]

/-- After removing every pair whose key equals `c`, the key `c` is absent. -/
lemma filter_key_not_mem (ns : List (String × NoteRec)) (c : String) :
    c ∉ (ns.filter fun p => !(p.1 = c)).map Prod.fst := by
  intro hc
  rcases List.mem_map.mp hc with ⟨p, hp, hfst⟩
  rcases List.mem_filter.mp hp with ⟨_, hne⟩
  simp only [Bool.not_eq_true', decide_eq_false_iff_not] at hne
  exact hne hfst

/-- Accumulator characterization of the migration fold. -/
lemma migrate_fold (gen : Nat → String) (old : List (String × String)) :
    ∀ (accN : List (String × NoteRec)) (accS : StoreSettings) (k : Nat),
    old.foldl (migrateStep gen) ({ notes := accN, settings := accS }, k) =
      ({ notes := accN ++ ((old.filter legacyKeep).enumFrom k).map
            (fun p => (gen p.1, legacyNote p.2)),
         settings :=
           if (old.filter legacyKeep).isEmpty then accS
           else { lastNoteId := some (gen (k + (old.filter legacyKeep).length - 1)) } },
       k + (old.filter legacyKeep).length) := by
  induction old with
  | nil => intro accN accS k; simp
  | cons e old ih =>
    intro accN accS k
    by_cases he : legacyKeep e
    · rw [List.foldl_cons, show migrateStep gen ({ notes := accN, settings := accS }, k) e =
        ({ notes := accN ++ [(gen k, legacyNote e)],
           settings := { lastNoteId := some (gen k) } }, k + 1) by
          simp [migrateStep, he]]
      rw [ih (accN ++ [(gen k, legacyNote e)]) { lastNoteId := some (gen k) } (k + 1)]
      have hf : (e :: old).filter legacyKeep = e :: old.filter legacyKeep := by
        simp [List.filter_cons, he]
      rw [hf]
      simp only [Prod.mk.injEq, StoreData.mk.injEq, List.enumFrom, List.map_cons,
        List.append_assoc, List.singleton_append, List.length_cons]
      refine ⟨⟨by simp, ?_⟩, by omega⟩
      by_cases hrest : (old.filter legacyKeep).isEmpty
      · have h0 : old.filter legacyKeep = [] := List.isEmpty_iff.mp hrest
        simp [h0]
      · have hlen : 0 < (old.filter legacyKeep).length := by
          cases hl : old.filter legacyKeep with
          | nil => rw [hl] at hrest; simp at hrest
          | cons a l => simp [hl]
        rw [if_neg hrest, if_neg (by simp)]
        have harith : k + 1 + (old.filter legacyKeep).length - 1 =
            k + ((old.filter legacyKeep).length + 1) - 1 := by omega
        rw [harith]
    · rw [List.foldl_cons, show migrateStep gen ({ notes := accN, settings := accS }, k) e =
        ({ notes := accN, settings := accS }, k) by simp [migrateStep, he]]
      rw [ih accN accS k]
      have hf : (e :: old).filter legacyKeep = old.filter legacyKeep := by
        simp [List.filter_cons, he]
      rw [hf]

/-- The lexer selection never propagates an exception. -/
lemma chooseLexer_ok (getL guessL : String → Except Unit PyLexer)
    (code lang : String) : ∃ l, chooseLexer getL guessL code lang = Except.ok l := by
  unfold chooseLexer tryCNF
  by_cases h : lang = ""
  · simp only [h]
    cases guessL code with
    | ok l => exact ⟨l, by simp⟩
    | error e => exact ⟨PyLexer.textLexer, by simp⟩
  · simp only [h]
    cases getL lang with
    | ok l => exact ⟨l, by simp⟩
    | error e => exact ⟨PyLexer.textLexer, by simp⟩

/-! ## Claim C5 -/

/-- C5, counterexample: an edit at time 0 followed by a note switch at
time 1 (inside the debounce window) performs the immediate write at time 1
but does not cancel the pending timer, which fires a further deferred write
at time 2 — the claim says no further deferred write fires after the
switch. -/
theorem c5_counterexample :
    runTrace [((0 : Nat), SaveEv.edit), (1, SaveEv.switch)] =
      ⟨none, [1], [2]⟩ := by
  decide

/-- C5, amended: N content-change events inside the debounce window produce
exactly one deferred write, two units after the last event, and no
immediate write; a content-change followed by a note switch inside the
window performs the immediate write at the switch time but leaves the
pending timer running, which fires one further deferred write at its
original deadline. -/
theorem c5_debounce_amended (times : List Nat) (h1 : times ≠ [])
    (h2 : List.Chain' (fun a b => a ≤ b ∧ b < a + 2) times)
    (t0 t1 : Nat) (h3 : t0 ≤ t1) (h4 : t1 < t0 + 2) :
    (runTrace (times.map fun x => (x, SaveEv.edit))).defWrites =
      [times.getLast h1 + 2] ∧
    (runTrace (times.map fun x => (x, SaveEv.edit))).immWrites = [] ∧
    runTrace [(t0, SaveEv.edit), (t1, SaveEv.switch)] = ⟨none, [t1], [t0 + 2]⟩ := by
  refine ⟨?_, ?_, ?_⟩
  · cases times with
    | nil => exact absurd rfl h1
    | cons t ts =>
      unfold runTrace
      rw [List.map_cons, List.foldl_cons,
        show stepEv ⟨none, [], []⟩ (t, SaveEv.edit) = ⟨some (t + 2), [], []⟩ by
          simp [stepEv, fireIfDue],
        foldl_edits ts t [] [] h2]
      simp [flushTimer]
  · cases times with
    | nil => exact absurd rfl h1
    | cons t ts =>
      unfold runTrace
      rw [List.map_cons, List.foldl_cons,
        show stepEv ⟨none, [], []⟩ (t, SaveEv.edit) = ⟨some (t + 2), [], []⟩ by
          simp [stepEv, fireIfDue],
        foldl_edits ts t [] [] h2]
      simp [flushTimer]
  · unfold runTrace
    rw [List.foldl_cons, List.foldl_cons,
      show stepEv ⟨none, [], []⟩ (t0, SaveEv.edit) = ⟨some (t0 + 2), [], []⟩ by
        simp [stepEv, fireIfDue],
      show stepEv ⟨some (t0 + 2), [], []⟩ (t1, SaveEv.switch) =
          ⟨some (t0 + 2), [t1], []⟩ by
        simp only [stepEv, fireIfDue]
        rw [if_neg (by omega)]
        simp]
    simp [flushTimer]

/-- C5, witness for the amended theorem at the concrete trace
`edit@0, edit@1` and `edit@0, switch@1`. -/
theorem c5_debounce_amended_witness :
    (runTrace [((0 : Nat), SaveEv.edit), (1, SaveEv.edit)]).defWrites = [3] ∧
    (runTrace [((0 : Nat), SaveEv.edit), (1, SaveEv.edit)]).immWrites = [] ∧
    runTrace [((0 : Nat), SaveEv.edit), (1, SaveEv.switch)] = ⟨none, [1], [2]⟩ := by
  have h := c5_debounce_amended [0, 1] (by decide)
    (List.chain'_cons.mpr ⟨⟨by omega, by omega⟩, List.chain'_singleton 1⟩)
    0 1 (by decide) (by decide)
  exact ⟨h.1, h.2.1, h.2.2⟩

/-! ## Claim C6 -/

/-- C6, counterexample: deleting the open note "A" while note "B" remains
writes a snapshot to disk whose `last_note_id` is still "A" even though
"A" is no longer among its notes; the in-memory store is repaired to "B"
only after the write.  The claim asserts the persisted state is repaired
as well. -/
theorem c6_counterexample :
    (deleteCurrentNote
      ⟨⟨[("A", ⟨"A", "x", "", ""⟩), ("B", ⟨"B", "y", "", ""⟩)], ⟨some "A"⟩⟩,
        some "A", "x", []⟩ true "" false "" "").disk =
      [⟨[("B", ⟨"B", "y", "", ""⟩)], ⟨some "A"⟩⟩] ∧
    ((⟨[("B", ⟨"B", "y", "", ""⟩)], ⟨some "A"⟩⟩ : StoreData).notes.map
        Prod.fst).contains "A" = false ∧
    (deleteCurrentNote
      ⟨⟨[("A", ⟨"A", "x", "", ""⟩), ("B", ⟨"B", "y", "", ""⟩)], ⟨some "A"⟩⟩,
        some "A", "x", []⟩ true "" false "" "").data.settings.lastNoteId =
      some "B" := by
  decide

/-- C6, amended: when the open note is deleted and other notes remain, the
in-memory `last_note_id` is repaired to the first remaining note, which
exists in the notes map; but the store snapshot persisted by the deletion
itself still carries the deleted id, which no longer references any note
in that snapshot — the disk copy is only repaired by a later save. -/
theorem c6_delete_repair_amended (st : AppState) (c : String) (n m : NoteRec)
    (k : String) (restNotes : List (String × NoteRec))
    (title : String) (ok : Bool) (nid now : String)
    (h1 : st.currentNoteId = some c)
    (h2 : lookupNote st.data c = some n)
    (h3 : st.data.settings.lastNoteId = some c)
    (h4 : st.data.notes.filter (fun p => !(p.1 = c)) = (k, m) :: restNotes) :
    (deleteCurrentNote st true title ok nid now).data.settings.lastNoteId = some k ∧
    k ∈ ((deleteCurrentNote st true title ok nid now).data.notes.map Prod.fst) ∧
    (deleteCurrentNote st true title ok nid now).disk.head? =
      some ⟨(k, m) :: restNotes, st.data.settings⟩ ∧
    st.data.settings.lastNoteId = some c ∧
    c ∉ (((k, m) :: restNotes).map Prod.fst) := by
  have hdel : deleteCurrentNote st true title ok nid now =
      loadNote (saveData { st with data := { st.data with notes := (k, m) :: restNotes } }) k := by
    unfold deleteCurrentNote
    rw [h1]
    simp only [h2, Option.isNone_some, Bool.not_true, Bool.false_eq_true, if_false,
      Bool.not_false, if_true, h4]
  have hload : lookupNote (saveData
      { st with data := { st.data with notes := (k, m) :: restNotes } }).data k = some m := by
    simp [saveData, lookupNote, List.find?]
  constructor
  · rw [hdel]
    unfold loadNote
    rw [hload]
  constructor
  · rw [hdel]
    unfold loadNote
    rw [hload]
    simp [saveData]
  constructor
  · rw [hdel]
    unfold loadNote
    rw [hload]
    simp [saveData]
  constructor
  · exact h3
  · rw [← h4]
    exact filter_key_not_mem st.data.notes c

/-- C6, witness for the amended theorem at the concrete two-note store. -/
theorem c6_delete_repair_amended_witness :
    (deleteCurrentNote
      ⟨⟨[("A", ⟨"A", "x", "", ""⟩), ("B", ⟨"B", "y", "", ""⟩)], ⟨some "A"⟩⟩,
        some "A", "x", []⟩ true "t" false "i" "n").data.settings.lastNoteId =
      some "B" ∧
    "B" ∈ (((deleteCurrentNote
      ⟨⟨[("A", ⟨"A", "x", "", ""⟩), ("B", ⟨"B", "y", "", ""⟩)], ⟨some "A"⟩⟩,
        some "A", "x", []⟩ true "t" false "i" "n").data.notes.map Prod.fst)) ∧
    (deleteCurrentNote
      ⟨⟨[("A", ⟨"A", "x", "", ""⟩), ("B", ⟨"B", "y", "", ""⟩)], ⟨some "A"⟩⟩,
        some "A", "x", []⟩ true "t" false "i" "n").disk.head? =
      some ⟨[("B", ⟨"B", "y", "", ""⟩)], ⟨some "A"⟩⟩ ∧
    "A" ∉ ((["B"] : List String)) := by
  have h := c6_delete_repair_amended
    ⟨⟨[("A", ⟨"A", "x", "", ""⟩), ("B", ⟨"B", "y", "", ""⟩)], ⟨some "A"⟩⟩,
      some "A", "x", []⟩ "A" ⟨"A", "x", "", ""⟩ ⟨"B", "y", "", ""⟩ "B" []
    "t" false "i" "n" rfl (by decide) rfl (by decide)
  exact ⟨h.1, h.2.1, h.2.2.1, by simp⟩

/-! ## Claim C7 -/

/-- C7: migrating `{"2023-01-01": "MARKDOWN_SOURCE:Hello"}` produces
exactly one note whose content is `"Hello"` with `last_note_id` pointing at
it; in general the migration creates exactly one note per non-empty legacy
entry, in order, and records the last created note as current. -/
theorem c7_legacy_migration (old : List (String × String)) (gen : Nat → String) :
    migrateOldData [("2023-01-01", "MARKDOWN_SOURCE:Hello")] gen =
      { notes := [(gen 0, ⟨"便签 (2023-01-01)", "Hello", "2023-01-01", "2023-01-01"⟩)],
        settings := { lastNoteId := some (gen 0) } } ∧
    (migrateOldData old gen).notes =
      ((old.filter legacyKeep).enum.map fun p => (gen p.1, legacyNote p.2)) ∧
    (migrateOldData old gen).settings.lastNoteId =
      (match (old.filter legacyKeep).length with
       | 0 => none
       | Nat.succ j => some (gen j)) := by
  refine ⟨?_, ?_, ?_⟩
  · unfold migrateOldData
    rw [migrate_fold gen [("2023-01-01", "MARKDOWN_SOURCE:Hello")] [] ⟨none⟩ 0]
    have : ([("2023-01-01", "MARKDOWN_SOURCE:Hello")].filter legacyKeep) =
        [("2023-01-01", "MARKDOWN_SOURCE:Hello")] := by decide
    rw [this]
    have hnote : legacyNote ("2023-01-01", "MARKDOWN_SOURCE:Hello") =
        ⟨"便签 (2023-01-01)", "Hello", "2023-01-01", "2023-01-01"⟩ := by decide
    simp [List.enumFrom, hnote]
  · unfold migrateOldData
    rw [migrate_fold gen old [] ⟨none⟩ 0]
    rfl
  · unfold migrateOldData
    rw [migrate_fold gen old [] ⟨none⟩ 0]
    cases hl : (old.filter legacyKeep) with
    | nil => simp [hl]
    | cons a l =>
      have harith : 0 + (l.length + 1) - 1 = l.length := by omega
      simp [hl, harith]

/-! ## Claim C9 -/

/-- C9: `highlight_code` never raises — for every behaviour of the
collaborators, the run returns a value; when the language lookup fails, or
the language is empty and auto-detection fails, the code is highlighted
with the plain-text lexer (the no-highlight pass-through). -/
theorem c9_highlight_total (getL guessL : String → Except Unit PyLexer)
    (hl : String → PyLexer → String) (code lang : String) :
    (∃ s, highlightCodeRun getL guessL hl code lang = Except.ok s) ∧
    (∀ e, getL lang = Except.error e → ¬ lang = "" →
      highlightCodeRun getL guessL hl code lang =
        Except.ok (hl code PyLexer.textLexer)) ∧
    (∀ e, lang = "" → guessL code = Except.error e →
      highlightCodeRun getL guessL hl code lang =
        Except.ok (hl code PyLexer.textLexer)) := by
  refine ⟨?_, ?_, ?_⟩
  · rcases chooseLexer_ok getL guessL code lang with ⟨l, hc⟩
    exact ⟨hl code l, by unfold highlightCodeRun; rw [hc]⟩
  · intro e hg hlang
    unfold highlightCodeRun chooseLexer tryCNF
    simp only [hlang]
    rw [if_pos (by simp [hlang]), hg]
  · intro e hlang hg
    unfold highlightCodeRun chooseLexer tryCNF
    rw [if_neg (by simp [hlang]), hg]

/-- C9, witness: with both collaborator lookups failing, the run still
returns, highlighting with the plain-text lexer. -/
theorem c9_highlight_total_witness :
    highlightCodeRun (fun _ => Except.error ()) (fun _ => Except.error ())
      (fun c _ => c) "x" "py" = Except.ok "x" ∧
    highlightCodeRun (fun _ => Except.error ()) (fun _ => Except.error ())
      (fun c _ => c) "x" "" = Except.ok "x" := by
  constructor
  · exact (c9_highlight_total (fun _ => Except.error ()) (fun _ => Except.error ())
      (fun c _ => c) "x" "py").2.1 () rfl (by decide)
  · exact (c9_highlight_total (fun _ => Except.error ()) (fun _ => Except.error ())
      (fun c _ => c) "x" "").2.2 () rfl rfl

/-! ## Claim C10 -/

/-- C10: `adjust_font_size` preserves the lower bound 6 — from any starting
size at least 6 and any integer delta the stored size stays at least 6,
and a decrease from size 6 leaves it at 6. -/
theorem c10_font_floor (fontSize delta : Int) (h : 6 ≤ fontSize) :
    6 ≤ adjustFontSize fontSize delta ∧ adjustFontSize 6 (-1) = 6 := by
  constructor
  · have hdef : adjustFontSize fontSize delta =
        if fontSize + delta < 6 then 6 else fontSize + delta := rfl
    rw [hdef]
    split <;> omega
  · decide

/-- C10, witness at size 7, delta -5. -/
theorem c10_font_floor_witness :
    6 ≤ adjustFontSize 7 (-5) ∧ adjustFontSize 6 (-1) = 6 :=
  c10_font_floor 7 (-5) (by decide)

/-! ## Claim C8 -/

/-- C8, counterexample: `@due(2024-13-99)` matches the date pattern but
fails calendar validation (month 13); the claim says such a date produces
no task-index entry, yet the index does contain the entry — only the
calendar mark is omitted. -/
theorem c8_counterexample :
    taskEntries [("n1", ⟨"T", "- [ ] oops @due(2024-13-99)", "", ""⟩)] =
      [("2024-13-99", "T", "oops", true)] ∧
    isValidDateStr "2024-13-99" = false ∧
    calendarMarks [("n1", ⟨"T", "- [ ] oops @due(2024-13-99)", "", ""⟩)] = [] := by
  decide

/-- C8, amended: a checklist line carrying both `@start(...)` and
`@due(...)` contributes exactly two index entries — the due entry and the
start entry, each tagged with its kind and carrying the line's text with
all `@word(...)` tags and the leading marker removed; a pattern-matching
date that fails calendar validation still contributes its index entry and
is only silently excluded from the calendar marks. -/
theorem c8_task_index_amended (pre post : List (String × NoteRec))
    (nid title cr mo : String) :
    taskEntries (pre ++
        (nid, ⟨title, "- [ ] Buy milk @start(2024-02-28) @due(2024-03-01)", cr, mo⟩)
        :: post) =
      taskEntries pre ++
        ([("2024-03-01", title, "Buy milk", true),
          ("2024-02-28", title, "Buy milk", false)] ++ taskEntries post) ∧
    taskEntries [("n1", ⟨"T", "- [ ] oops @due(2024-13-99)", "", ""⟩)] =
      [("2024-13-99", "T", "oops", true)] ∧
    calendarMarks [("n1", ⟨"T", "- [ ] oops @due(2024-13-99)", "", ""⟩)] = [] := by
  refine ⟨?_, by decide, by decide⟩
  unfold taskEntries
  rw [List.flatMap_append, List.flatMap_cons]
  have hmid : (splitNl "- [ ] Buy milk @start(2024-02-28) @due(2024-03-01)").flatMap
      (fun line => lineEntries title line) =
      [("2024-03-01", title, "Buy milk", true),
       ("2024-02-28", title, "Buy milk", false)] := rfl
  simp only [hmid]

/-! ## Claim C4 -/

/-- C4, counterexample: the line `"  - a"` begins with a list marker after
its two leading spaces, yet the leading-indent step strips it to `"- a"`
(the 1–4-space regex backtracks to one space, whose lookahead sees another
space, and `lstrip(' ')` then removes every leading space) — the claim says
list-marker lines are left untouched regardless of leading spaces. -/
theorem c4_counterexample :
    stripLeadingIndent "  - a" = "- a" ∧ processNonCode "  - a" = some "- a" := by
  decide

/-- A non-`p` member survives `dropWhile p`. -/
lemma mem_dropWhile_of_not (p : Char → Bool) (cs : List Char) (c : Char)
    (hc : c ∈ cs) (hp : p c = false) : c ∈ cs.dropWhile p := by
  induction cs with
  | nil => cases hc
  | cons a t ih =>
    rw [List.dropWhile_cons]
    by_cases ha : p a = true
    · rw [if_pos ha]
      rcases List.mem_cons.mp hc with h | h
      · rw [h] at hp; rw [hp] at ha; cases ha
      · exact ih h
    · rw [if_neg ha]
      exact hc

/-- A list containing a non-whitespace character does not strip to empty. -/
lemma pyStripChars_ne_nil (cs : List Char) (c : Char) (hc : c ∈ cs)
    (hp : pyWs c = false) : pyStripChars cs ≠ [] := by
  unfold pyStripChars
  intro h
  have h1 : c ∈ cs.dropWhile pyWs := mem_dropWhile_of_not pyWs cs c hc hp
  have h2 : c ∈ (cs.dropWhile pyWs).reverse := List.mem_reverse.mpr h1
  have h3 : c ∈ ((cs.dropWhile pyWs).reverse.dropWhile pyWs) :=
    mem_dropWhile_of_not pyWs _ c h2 hp
  have h4 : c ∈ ((cs.dropWhile pyWs).reverse.dropWhile pyWs).reverse :=
    List.mem_reverse.mpr h3
  rw [h] at h4
  cases h4

/-- Spaces stripped by `lstrip(' ')` from a space-replicated prefix. -/
lemma dropWhile_space_replicate (k : Nat) (rest : List Char)
    (h : rest.head? ≠ some ' ') :
    (List.replicate k ' ' ++ rest).dropWhile (fun c => c = ' ') = rest := by
  induction k with
  | zero =>
    cases rest with
    | nil => rfl
    | cons r t =>
      have hr : ¬ (r = ' ') := fun he => h (by rw [he]; rfl)
      simp [List.dropWhile_cons, hr]
  | succ m ih =>
    rw [List.replicate_succ, List.cons_append, List.dropWhile_cons]
    simpa using ih

/-- A leading space defeats the list-marker lookahead. -/
lemma markerAt_space (l : List Char) : markerAt (' ' :: l) = false := by
  unfold markerAt
  simp [List.takeWhile_cons]

/-- Unfolding of the indent step when the regex matches on a non-blank
line. -/
lemma stripLeadingIndent_of_match (line : String)
    (hm : matchIndent line.data = true) (hs : ¬ (pyStrip line = "")) :
    stripLeadingIndent line = String.mk (line.data.dropWhile (fun c => c = ' ')) := by
  unfold stripLeadingIndent
  rw [hm]
  simp [hs]

/-- Unfolding of the indent step when the regex does not match. -/
lemma stripLeadingIndent_of_no_match (line : String)
    (hm : matchIndent line.data = false) :
    stripLeadingIndent line = line := by
  unfold stripLeadingIndent
  rw [hm]
  simp

/-- C4, amended: outside code blocks, a non-blank line with at least two
leading spaces always has every leading space stripped, list marker or
not; with exactly one leading space the strip happens only when the text
after the space does not begin with a list marker or ordered-list number;
with no leading space the line is untouched. -/
theorem c4_indent_strip_spec (k : Nat) (rest : List Char)
    (h1 : rest ≠ []) (h2 : rest.head? ≠ some ' ')
    (h3 : ∃ c ∈ rest, pyWs c = false) :
    stripLeadingIndent (String.mk (List.replicate k ' ' ++ rest)) =
      if 2 ≤ k ∨ (k = 1 ∧ markerAt rest = false) then String.mk rest
      else String.mk (List.replicate k ' ' ++ rest) := by
  obtain ⟨c, hc, hcws⟩ := h3
  have hstrip : ¬ (pyStrip (String.mk (List.replicate k ' ' ++ rest)) = "") := by
    intro h
    have hne := pyStripChars_ne_nil (List.replicate k ' ' ++ rest) c
      (List.mem_append_right _ hc) hcws
    apply hne
    have hdat : (pyStrip (String.mk (List.replicate k ' ' ++ rest))).data =
        ("" : String).data := by rw [h]
    simpa [pyStrip] using hdat
  obtain ⟨r, t, hrt⟩ : ∃ r t, rest = r :: t := by
    cases rest with
    | nil => exact absurd rfl h1
    | cons r t => exact ⟨r, t, rfl⟩
  have hr : ¬ (r = ' ') := by
    intro he
    rw [hrt, he] at h2
    exact h2 rfl
  have hr2 : ¬ (' ' = r) := fun he => hr he.symm
  have hdropk : (List.replicate k ' ' ++ rest).dropWhile (fun c => c = ' ') = rest :=
    dropWhile_space_replicate k rest h2
  match k with
  | 0 =>
    have hmi : matchIndent ((String.mk (List.replicate 0 ' ' ++ rest)).data) = false := by
      rw [show (String.mk (List.replicate 0 ' ' ++ rest)).data = rest from rfl, hrt]
      simp [matchIndent, isPrefCh, hr2]
    rw [stripLeadingIndent_of_no_match _ hmi, if_neg (by omega)]
  | 1 =>
    have hdata : (String.mk (List.replicate 1 ' ' ++ rest)).data = ' ' :: rest := rfl
    cases hmark : markerAt rest with
    | false =>
      have hmi : matchIndent ((String.mk (List.replicate 1 ' ' ++ rest)).data) = true := by
        rw [hdata]
        simp only [matchIndent, List.any_cons, List.any_nil, Bool.or_eq_true,
          Bool.or_false]
        exact Or.inl (by simp [isPrefCh, List.replicate, hmark])
      rw [stripLeadingIndent_of_match _ hmi hstrip, if_pos (Or.inr ⟨rfl, rfl⟩),
        show (String.mk (List.replicate 1 ' ' ++ rest)).data =
          List.replicate 1 ' ' ++ rest from rfl, hdropk]
    | true =>
      have hmark2 : markerAt (r :: t) = true := hrt ▸ hmark
      have hmi : matchIndent ((String.mk (List.replicate 1 ' ' ++ rest)).data) = false := by
        rw [hdata, hrt]
        simp [matchIndent, isPrefCh, List.replicate, hr2, hmark2]
      rw [stripLeadingIndent_of_no_match _ hmi, if_neg (by decide)]
  | Nat.succ (Nat.succ m) =>
    have hdata : (String.mk (List.replicate (m + 2) ' ' ++ rest)).data =
        ' ' :: ' ' :: (List.replicate m ' ' ++ rest) := by
      simp [List.replicate_succ]
    have hmi : matchIndent ((String.mk (List.replicate (m + 2) ' ' ++ rest)).data) = true := by
      rw [hdata]
      simp only [matchIndent, List.any_cons, List.any_nil, Bool.or_eq_true,
        Bool.or_false]
      exact Or.inl (by simp [isPrefCh, List.replicate, markerAt_space])
    rw [stripLeadingIndent_of_match _ hmi hstrip, if_pos (Or.inl (by omega)),
      show (String.mk (List.replicate (m + 2) ' ' ++ rest)).data =
        List.replicate (m + 2) ' ' ++ rest from rfl, hdropk]

/-- C4, witness for the amended theorem: three leading spaces before a
non-list line are fully stripped. -/
theorem c4_indent_strip_spec_witness :
    stripLeadingIndent "   x a" = "x a" := by
  have h := c4_indent_strip_spec 3 ("x a".data) (by decide) (by decide)
    ⟨'x', by decide, rfl⟩
  rw [if_pos (Or.inl (by omega))] at h
  exact h

/-! ## Claim C2 -/

/-- Equation for restoration of an empty content list. -/
lemma restoreLines_nil (es : List Nat) (i : Nat) :
    restoreLines es i [] = List.replicate (blankRun es i) "" := rfl

/-- Equation for restoration at a content line. -/
lemma restoreLines_cons (es : List Nat) (i : Nat) (l : String) (ls : List String) :
    restoreLines es i (l :: ls) =
      List.replicate (blankRun es i) "" ++
        l :: restoreLines es (i + blankRun es i + 1) ls := rfl

/-- One-step unfolding of the fuelled blank-run loop. -/
lemma blankRunAux_succ (f : Nat) (es : List Nat) (i : Nat) :
    blankRunAux (f + 1) es i =
      if es.contains i then blankRunAux f (es.erase i) (i + 1) + 1 else 0 := rfl

/-- Sufficient fuel computes the blank run exactly. -/
lemma blankRunAux_fuel : ∀ (f : Nat) (es : List Nat) (i : Nat),
    es.length ≤ f → blankRunAux f es i = blankRun es i := by
  intro f
  induction f with
  | zero =>
    intro es i h
    have hnil : es = [] := List.length_eq_zero.mp (Nat.le_zero.mp h)
    subst hnil
    rfl
  | succ f ih =>
    intro es i h
    by_cases hc : es.contains i
    · have hmem : i ∈ es := by simpa using hc
      have hpos : 0 < es.length := List.length_pos.mpr (List.ne_nil_of_mem hmem)
      have hlen : es.length = (es.erase i).length + 1 := by
        rw [List.length_erase_of_mem hmem]
        omega
      rw [blankRunAux_succ, if_pos hc]
      rw [ih (es.erase i) (i + 1) (by omega)]
      unfold blankRun
      rw [hlen, blankRunAux_succ, if_pos hc]
    · rw [blankRunAux_succ, if_neg hc]
      unfold blankRun
      cases hl : es.length with
      | zero => rfl
      | succ m => rw [blankRunAux_succ, if_neg hc]

/-- One-step unfolding of the blank-run computation. -/
lemma blankRun_unfold (es : List Nat) (i : Nat) :
    blankRun es i =
      if es.contains i then blankRun (es.erase i) (i + 1) + 1 else 0 := by
  by_cases hc : es.contains i
  · have hmem : i ∈ es := by simpa using hc
    have hlen : es.length = (es.erase i).length + 1 := by
      have hpos : 0 < es.length := List.length_pos.mpr (List.ne_nil_of_mem hmem)
      rw [List.length_erase_of_mem hmem]
      omega
    rw [if_pos hc]
    unfold blankRun
    rw [hlen, blankRunAux_succ, if_pos hc]
  · rw [if_neg hc]
    unfold blankRun
    cases hl : es.length with
    | zero => rfl
    | succ m => rw [blankRunAux_succ, if_neg hc]

/-- Erasing an index below the scan start does not change the blank run. -/
lemma blankRun_erase_lt : ∀ (n : Nat) (es : List Nat), es.length ≤ n →
    ∀ (i j : Nat), i < j → blankRun (es.erase i) j = blankRun es j := by
  intro n
  induction n with
  | zero =>
    intro es h i j _
    have hnil : es = [] := List.length_eq_zero.mp (Nat.le_zero.mp h)
    subst hnil
    rfl
  | succ n ih =>
    intro es h i j hij
    have hne : j ≠ i := by omega
    by_cases hc : j ∈ es
    · have hc2 : j ∈ es.erase i := (List.mem_erase_of_ne hne).mpr hc
      rw [blankRun_unfold (es.erase i) j, blankRun_unfold es j,
        if_pos (by simpa using hc2), if_pos (by simpa using hc),
        List.erase_comm]
      have hlen : (es.erase j).length ≤ n := by
        have hpos : 0 < es.length := List.length_pos.mpr (List.ne_nil_of_mem hc)
        rw [List.length_erase_of_mem hc]
        omega
      rw [ih (es.erase j) hlen i (j + 1) (by omega)]
    · have hc2 : j ∉ es.erase i := fun hmem => hc ((List.mem_erase_of_ne hne).mp hmem)
      rw [blankRun_unfold (es.erase i) j, blankRun_unfold es j,
        if_neg (by simpa using hc2), if_neg (by simpa using hc)]

/-- Erasing an index below the scan start does not change restoration. -/
lemma restore_erase_lt (es : List Nat) : ∀ (ls : List String) (i j : Nat), i < j →
    restoreLines (es.erase i) j ls = restoreLines es j ls := by
  intro ls
  induction ls with
  | nil =>
    intro i j hij
    rw [restoreLines_nil, restoreLines_nil,
      blankRun_erase_lt es.length es (Nat.le_refl _) i j hij]
  | cons l ls ih =>
    intro i j hij
    rw [restoreLines_cons, restoreLines_cons,
      blankRun_erase_lt es.length es (Nat.le_refl _) i j hij,
      ih i (j + blankRun es j + 1) (by omega)]

/-- Restoration at a recorded blank index emits one blank line and
continues past it. -/
lemma restore_cons_blank (es : List Nat) (i : Nat) (content : List String)
    (hmem : i ∈ es) :
    restoreLines es i content =
      "" :: restoreLines (es.erase i) (i + 1) content := by
  have hc : es.contains i = true := by simpa using hmem
  cases content with
  | nil =>
    rw [restoreLines_nil, restoreLines_nil, blankRun_unfold es i, if_pos hc,
      List.replicate_succ]
  | cons l ls =>
    rw [restoreLines_cons, restoreLines_cons, blankRun_unfold es i, if_pos hc,
      List.replicate_succ, List.cons_append,
      restore_erase_lt es ls i (i + 1 + blankRun (es.erase i) (i + 1) + 1) (by omega)]
    have harith : i + (blankRun (es.erase i) (i + 1) + 1) + 1 =
        i + 1 + blankRun (es.erase i) (i + 1) + 1 := by omega
    rw [harith]

/-- Members of the blank-index snapshot are at least the start index. -/
lemma mem_ge_emptyIdxsFrom : ∀ (S : List String) (i j : Nat),
    j ∈ emptyIdxsFrom i S → i ≤ j := by
  intro S
  induction S with
  | nil => intro i j h; cases h
  | cons l T ih =>
    intro i j h
    unfold emptyIdxsFrom at h
    rcases List.mem_append.mp h with h1 | h1
    · by_cases hbl : pyStrip l = ""
      · rw [if_pos hbl] at h1
        rcases List.mem_singleton.mp h1 with rfl
        exact Nat.le_refl _
      · rw [if_neg hbl] at h1
        cases h1
    · have := ih (i + 1) j h1
      omega

/-- Characterization of the blank-index snapshot. -/
lemma mem_emptyIdxsFrom : ∀ (S : List String) (i k : Nat),
    ((i + k) ∈ emptyIdxsFrom i S ↔ ∃ l, S.get? k = some l ∧ pyStrip l = "") := by
  intro S
  induction S with
  | nil =>
    intro i k
    simp [emptyIdxsFrom]
  | cons l T ih =>
    intro i k
    unfold emptyIdxsFrom
    cases k with
    | zero =>
      rw [Nat.add_zero]
      constructor
      · intro h
        rcases List.mem_append.mp h with h1 | h1
        · by_cases hbl : pyStrip l = ""
          · exact ⟨l, by simp, hbl⟩
          · rw [if_neg hbl] at h1
            cases h1
        · have := mem_ge_emptyIdxsFrom T (i + 1) i h1
          omega
      · rintro ⟨l2, hget, hbl⟩
        obtain rfl : l = l2 := by simpa using hget
        exact List.mem_append.mpr (Or.inl (by rw [if_pos hbl]; exact List.mem_singleton.mpr rfl))
    | succ k =>
      have hre : i + (k + 1) = (i + 1) + k := by omega
      constructor
      · intro h
        rcases List.mem_append.mp h with h1 | h1
        · by_cases hbl : pyStrip l = ""
          · rw [if_pos hbl] at h1
            have := List.mem_singleton.mp h1
            omega
          · rw [if_neg hbl] at h1
            cases h1
        · rw [hre] at h1
          have := (ih (i + 1) k).mp h1
          simpa using this
      · rintro ⟨l2, hget, hbl⟩
        refine List.mem_append.mpr (Or.inr ?_)
        rw [hre]
        exact (ih (i + 1) k).mpr ⟨l2, by simpa using hget, hbl⟩

/-- The restoration loop replays the snapshot exactly: the content lines in
order with a blank line at every recorded index. -/
lemma restore_exact : ∀ (S : List String) (i : Nat) (es : List Nat),
    (∀ k, ((i + k) ∈ es ↔ ∃ l, S.get? k = some l ∧ pyStrip l = "")) →
    restoreLines es i (S.filter fun l => !(pyStrip l = "")) =
      S.map fun l => if pyStrip l = "" then "" else l := by
  intro S
  induction S with
  | nil =>
    intro i es H
    have hnot : i ∉ es := by
      intro hmem
      rcases (H 0).mp (by simpa using hmem) with ⟨l, hget, _⟩
      simp at hget
    rw [List.filter_nil, List.map_nil, restoreLines_nil, blankRun_unfold es i,
      if_neg (by simpa using hnot)]
    simp
  | cons l T ih =>
    intro i es H
    by_cases hbl : pyStrip l = ""
    · have hmem : i ∈ es := by
        have := (H 0).mpr ⟨l, by simp, hbl⟩
        simpa using this
      rw [show (l :: T).filter (fun l => !(pyStrip l = "")) =
        T.filter (fun l => !(pyStrip l = "")) by simp [List.filter_cons, hbl]]
      rw [restore_cons_blank es i _ hmem]
      rw [ih (i + 1) (es.erase i) ?_]
      · simp [List.map_cons, hbl]
      · intro k
        have hne : i + 1 + k ≠ i := by omega
        rw [List.mem_erase_of_ne hne]
        have := H (k + 1)
        rw [show i + (k + 1) = i + 1 + k by omega] at this
        simpa using this
    · have hnot : i ∉ es := by
        intro hmem
        rcases (H 0).mp (by simpa using hmem) with ⟨l2, hget, hbl2⟩
        obtain rfl : l = l2 := by simpa using hget
        exact hbl hbl2
      rw [show (l :: T).filter (fun l => !(pyStrip l = "")) =
        l :: T.filter (fun l => !(pyStrip l = "")) by simp [List.filter_cons, hbl]]
      rw [restoreLines_cons, blankRun_unfold es i, if_neg (by simpa using hnot)]
      simp only [List.replicate_zero, List.nil_append, Nat.add_zero]
      rw [ih (i + 1) es ?_]
      · simp [List.map_cons, hbl]
      · intro k
        have := H (k + 1)
        rw [show i + (k + 1) = i + 1 + k by omega] at this
        simpa using this

/-- C2, counterexample: the source `"a\n"` has one blank line at index 1;
rendering captures the snapshot `[1]` and recovery of the natural converted
draft `"a\n\n"` yields `"a"`, which has no blank line at all — the final
strip removes the restored trailing blank, so the blank-line layout is not
preserved. -/
theorem c2_counterexample :
    getMarkdownFromRendered "a\n\n" (originalCodeBlocks "a\n")
      (originalEmptyLines "a\n") [] = "a" ∧
    originalEmptyLines "a\n" = [1] ∧
    originalEmptyLines "a" = [] := by
  decide

/-- Equation for splitting at a cons cell. -/
lemma splitNlChars_cons (c : Char) (cs : List Char) :
    splitNlChars (c :: cs) =
      if c = '\n' then [] :: splitNlChars cs
      else
        match splitNlChars cs with
        | l :: ls => (c :: l) :: ls
        | [] => [[c]] := rfl

/-- A newline-free character list splits to itself. -/
lemma splitNlChars_no_nl : ∀ (l : List Char), '\n' ∉ l → splitNlChars l = [l] := by
  intro l
  induction l with
  | nil => intro _; rfl
  | cons c cs ih =>
    intro h
    have hc : ¬ (c = '\n') := fun he => h (by rw [he]; exact List.mem_cons_self _ _)
    rw [splitNlChars_cons, if_neg hc, ih (fun hm => h (List.mem_cons_of_mem _ hm))]

/-- Splitting after a newline-free prefix peels off one line. -/
lemma splitNlChars_append (X : List Char) : ∀ (l : List Char), '\n' ∉ l →
    splitNlChars (l ++ '\n' :: X) = l :: splitNlChars X := by
  intro l
  induction l with
  | nil =>
    intro _
    rw [List.nil_append, splitNlChars_cons, if_pos rfl]
  | cons c cs ih =>
    intro h
    have hc : ¬ (c = '\n') := fun he => h (by rw [he]; exact List.mem_cons_self _ _)
    rw [List.cons_append, splitNlChars_cons, if_neg hc,
      ih (fun hm => h (List.mem_cons_of_mem _ hm))]

/-- Splitting inverts joining for newline-free lines. -/
lemma splitNlChars_joinNlChars : ∀ (lls : List (List Char)), lls ≠ [] →
    (∀ l ∈ lls, '\n' ∉ l) → splitNlChars (joinNlChars lls) = lls := by
  intro lls
  induction lls with
  | nil => intro h _; exact absurd rfl h
  | cons l rest ih =>
    intro _ h2
    cases rest with
    | nil =>
      rw [show joinNlChars [l] = l from rfl]
      exact splitNlChars_no_nl l (h2 l (List.mem_cons_self _ _))
    | cons l2 rest2 =>
      rw [show joinNlChars (l :: l2 :: rest2) = l ++ '\n' :: joinNlChars (l2 :: rest2)
        from rfl]
      rw [splitNlChars_append _ l (h2 l (List.mem_cons_self _ _))]
      rw [ih (by simp) (fun x hx => h2 x (List.mem_cons_of_mem _ hx))]

/-- String-level split/join round trip for newline-free lines. -/
lemma splitNl_joinNl (S : List String) (h1 : S ≠ [])
    (h2 : ∀ l ∈ S, '\n' ∉ l.data) : splitNl (joinNl S) = S := by
  unfold splitNl joinNl
  rw [show (String.mk (joinNlChars (S.map String.data))).data =
    joinNlChars (S.map String.data) from rfl]
  rw [splitNlChars_joinNlChars (S.map String.data) (by simpa using h1)
    (by intro l hl; rcases List.mem_map.mp hl with ⟨s, hs, rfl⟩; exact h2 s hs)]
  rw [List.map_map]
  apply List.map_id''
  intro s
  rfl

/-- C2, amended: the blank-line restoration stage itself replays the
snapshot exactly — given the collapsed draft's content lines, the restored
line list has a blank line at exactly the recorded indices and the content
lines in order — but the pipeline's final strip afterwards removes leading
and trailing blank lines, so only interior blank lines survive a full
render/recover cycle. -/
theorem c2_blank_restore_amended (S : List String) (h1 : S ≠ [])
    (h2 : ∀ l ∈ S, '\n' ∉ l.data) :
    restoreLines (originalEmptyLines (joinNl S)) 0
        (S.filter fun l => !(pyStrip l = "")) =
      S.map (fun l => if pyStrip l = "" then "" else l) := by
  unfold originalEmptyLines
  rw [splitNl_joinNl S h1 h2]
  apply restore_exact
  intro k
  simpa using mem_emptyIdxsFrom S 0 k

/-- C2, witness for the amended theorem: the three-line source
`"a" / blank / "b"` is restored exactly. -/
theorem c2_blank_restore_amended_witness :
    restoreLines (originalEmptyLines (joinNl ["a", "", "b"])) 0
        ((["a", "", "b"] : List String).filter fun l => !(pyStrip l = "")) =
      ["a", "", "b"] := by
  have h := c2_blank_restore_amended ["a", "", "b"] (by decide) (by decide)
  simpa using h

/-! ## Shared lemmas for the recovery-pipeline claims -/

/-- Equation for one iteration of the recovery line loop. -/
lemma recoverLoop_cons (blocks : List String) (line : String) (rest : List String)
    (inCode : Bool) (codeLines : List String) (idx : Nat) :
    recoverLoop blocks (line :: rest) inCode codeLines idx =
      if !inCode && startsWithStr (pyStrip line) "```" then
        recoverLoop blocks rest true [line] idx
      else if inCode then
        if pyStrip line = "```" then
          match blocks.get? idx with
          | some b => b :: recoverLoop blocks rest false [] (idx + 1)
          | none => joinNl (codeLines ++ [line]) :: recoverLoop blocks rest false [] idx
        else recoverLoop blocks rest true (codeLines ++ [line]) idx
      else
        match processNonCode line with
        | some out => out :: recoverLoop blocks rest false [] idx
        | none => recoverLoop blocks rest false [] idx := rfl

/-- The last element of an append with a nonempty right part. -/
lemma getLast?_append_right (l1 l2 : List Char) (h : l2 ≠ []) :
    (l1 ++ l2).getLast? = l2.getLast? := by
  induction l1 with
  | nil => rfl
  | cons a t ih =>
    rw [List.cons_append]
    have hne : t ++ l2 ≠ [] := by
      intro hc
      rcases List.append_eq_nil.mp hc with ⟨_, h2⟩
      exact h h2
    cases hx : t ++ l2 with
    | nil => exact absurd hx hne
    | cons b u =>
      rw [List.getLast?_cons_cons, ← hx, ih]

/-- A list whose first and last characters are not whitespace strips to
itself. -/
lemma pyStripChars_eq_self (cs : List Char) (c1 c2 : Char)
    (h1 : cs.head? = some c1) (hw1 : pyWs c1 = false)
    (h2 : cs.getLast? = some c2) (hw2 : pyWs c2 = false) :
    pyStripChars cs = cs := by
  unfold pyStripChars
  have hd : cs.dropWhile pyWs = cs := by
    cases cs with
    | nil => rfl
    | cons a t =>
      have ha : a = c1 := by simpa using h1
      rw [List.dropWhile_cons, ha, hw1]
      simp
  rw [hd]
  have hrev : cs.reverse.dropWhile pyWs = cs.reverse := by
    cases hr : cs.reverse with
    | nil => rfl
    | cons a t =>
      have ha : cs.reverse.head? = some a := by rw [hr]; rfl
      rw [List.head?_reverse] at ha
      have ha2 : a = c2 := by
        rw [h2] at ha
        simpa using ha.symm
      rw [List.dropWhile_cons, ha2, hw2]
      simp [← hr]
  rw [hrev, List.reverse_reverse]

/-- The digit run of the checkbox-index match stops at the closing
parenthesis. -/
lemma takeWhile_digits_append (ds rest : List Char)
    (h : ∀ c ∈ ds, c.isDigit = true)
    (hr : ∀ c, rest.head? = some c → c.isDigit = false) :
    (ds ++ rest).takeWhile Char.isDigit = ds := by
  induction ds with
  | nil =>
    cases rest with
    | nil => rfl
    | cons c t => simp [List.takeWhile_cons, hr c rfl]
  | cons d t ih =>
    rw [List.cons_append, List.takeWhile_cons, h d (List.mem_cons_self d t),
      ih (fun c hc => h c (List.mem_cons_of_mem _ hc))]
    simp

/-- The closing part `](checkbox:N)` of the checkbox link matches for any
nonempty digit index. -/
lemma closeCk_digits (ds : List Char) (tail : List Char)
    (hne : ds ≠ []) (hdig : ∀ c ∈ ds, c.isDigit = true)
    (htail : ∀ c, tail.head? = some c → c.isDigit = false)
    (hpar : tail.head? = some ')') :
    closeCk (']' :: '(' :: 'c' :: 'h' :: 'e' :: 'c' :: 'k' :: 'b' :: 'o' :: 'x' :: ':'
        :: (ds ++ tail)) = some tail.tail := by
  have hpre : isPrefCh ("](checkbox:").data
      (']' :: '(' :: 'c' :: 'h' :: 'e' :: 'c' :: 'k' :: 'b' :: 'o' :: 'x' :: ':'
        :: (ds ++ tail)) = true := rfl
  unfold closeCk
  rw [if_pos hpre]
  show (if ((ds ++ tail).takeWhile Char.isDigit).isEmpty = true then none
        else
          match (ds ++ tail).drop ((ds ++ tail).takeWhile Char.isDigit).length with
          | c :: r => if c = ')' then some r else none
          | [] => none) = some tail.tail
  rw [takeWhile_digits_append ds tail hdig htail]
  have hdsE : ds.isEmpty = false := by
    cases ds with
    | nil => exact absurd rfl hne
    | cons a t => rfl
  rw [hdsE, if_neg (by simp), List.drop_left]
  cases tail with
  | nil => simp at hpar
  | cons c t =>
    have hc : c = ')' := by simpa using hpar
    rw [hc]
    simp

/-- Processing the converted draft line of a rendered checked checkbox
recovers the canonical `- [x] done` form, for any checkbox index. -/
lemma c3_line_checked (ds : List Char) (hne : ds ≠ [])
    (hdig : ∀ c ∈ ds, c.isDigit = true) :
    processNonCode (String.mk (("- [☑︎](checkbox:").data ++ (ds ++ (") done").data))) =
      some "- [x] done" := by
  have hclose : closeCk (']' :: '(' :: 'c' :: 'h' :: 'e' :: 'c' :: 'k' :: 'b' :: 'o'
      :: 'x' :: ':' :: (ds ++ (") done").data)) = some ((" done").data) :=
    closeCk_digits ds ((") done").data) hne hdig
      (by intro c hc; obtain rfl : ')' = c := (by simpa using hc); rfl) rfl
  have hscan : linkScan ('☑' :: '︎' :: ']' :: '(' :: 'c' :: 'h' :: 'e' :: 'c'
      :: 'k' :: 'b' :: 'o' :: 'x' :: ':' :: (ds ++ (") done").data)) =
      some ((" done").data) := by
    rw [show linkScan ('☑' :: '︎' :: ']' :: '(' :: 'c' :: 'h' :: 'e' :: 'c'
      :: 'k' :: 'b' :: 'o' :: 'x' :: ':' :: (ds ++ (") done").data)) =
      linkScan (']' :: '(' :: 'c' :: 'h' :: 'e' :: 'c' :: 'k' :: 'b' :: 'o' :: 'x'
        :: ':' :: (ds ++ (") done").data)) from rfl]
    unfold linkScan
    rw [hclose]
  have halt : altChecked ('[' :: '☑' :: '︎' :: ']' :: '(' :: 'c' :: 'h' :: 'e'
      :: 'c' :: 'k' :: 'b' :: 'o' :: 'x' :: ':' :: (ds ++ (") done").data)) =
      some ((" done").data) := by
    unfold altChecked
    rw [show linkAlt ('[' :: '☑' :: '︎' :: ']' :: '(' :: 'c' :: 'h' :: 'e'
      :: 'c' :: 'k' :: 'b' :: 'o' :: 'x' :: ':' :: (ds ++ (") done").data)) =
      linkScan ('☑' :: '︎' :: ']' :: '(' :: 'c' :: 'h' :: 'e' :: 'c' :: 'k'
        :: 'b' :: 'o' :: 'x' :: ':' :: (ds ++ (") done").data)) from rfl]
    rw [hscan]
  have hclean : cleanCB altChecked
      (String.mk (("- [☑︎](checkbox:").data ++ (ds ++ (") done").data))) =
      "done" := by
    show (match (match (altChecked ('[' :: '☑' :: '︎' :: ']' :: '(' :: 'c'
            :: 'h' :: 'e' :: 'c' :: 'k' :: 'b' :: 'o' :: 'x' :: ':'
            :: (ds ++ (") done").data))).map (fun r => r.dropWhile pyWs) with
          | some r => some r
          | none =>
            (altChecked (("- [☑︎](checkbox:").data ++ (ds ++ (") done").data))).map
              (fun r => r.dropWhile pyWs)) with
      | some r => String.mk r
      | none => String.mk (("- [☑︎](checkbox:").data ++ (ds ++ (") done").data))) =
      "done"
    rw [halt]
    rfl
  show some ("- [x] " ++ cleanCB altChecked
      (String.mk (("- [☑︎](checkbox:").data ++ (ds ++ (") done").data)))) =
    some "- [x] done"
  rw [hclean]
  rfl

/-- Processing the converted draft line of a rendered unchecked checkbox
recovers the canonical `- [ ] todo` form, for any checkbox index. -/
lemma c3_line_unchecked (ds : List Char) (hne : ds ≠ [])
    (hdig : ∀ c ∈ ds, c.isDigit = true) :
    processNonCode (String.mk (("- [☐︎](checkbox:").data ++ (ds ++ (") todo").data))) =
      some "- [ ] todo" := by
  have hclose : closeCk (']' :: '(' :: 'c' :: 'h' :: 'e' :: 'c' :: 'k' :: 'b' :: 'o'
      :: 'x' :: ':' :: (ds ++ (") todo").data)) = some ((" todo").data) :=
    closeCk_digits ds ((") todo").data) hne hdig
      (by intro c hc; obtain rfl : ')' = c := (by simpa using hc); rfl) rfl
  have hscan : linkScan ('☐' :: '︎' :: ']' :: '(' :: 'c' :: 'h' :: 'e' :: 'c'
      :: 'k' :: 'b' :: 'o' :: 'x' :: ':' :: (ds ++ (") todo").data)) =
      some ((" todo").data) := by
    rw [show linkScan ('☐' :: '︎' :: ']' :: '(' :: 'c' :: 'h' :: 'e' :: 'c'
      :: 'k' :: 'b' :: 'o' :: 'x' :: ':' :: (ds ++ (") todo").data)) =
      linkScan (']' :: '(' :: 'c' :: 'h' :: 'e' :: 'c' :: 'k' :: 'b' :: 'o' :: 'x'
        :: ':' :: (ds ++ (") todo").data)) from rfl]
    unfold linkScan
    rw [hclose]
  have halt : altUnchecked ('[' :: '☐' :: '︎' :: ']' :: '(' :: 'c' :: 'h' :: 'e'
      :: 'c' :: 'k' :: 'b' :: 'o' :: 'x' :: ':' :: (ds ++ (") todo").data)) =
      some ((" todo").data) := by
    unfold altUnchecked
    rw [show linkAlt ('[' :: '☐' :: '︎' :: ']' :: '(' :: 'c' :: 'h' :: 'e'
      :: 'c' :: 'k' :: 'b' :: 'o' :: 'x' :: ':' :: (ds ++ (") todo").data)) =
      linkScan ('☐' :: '︎' :: ']' :: '(' :: 'c' :: 'h' :: 'e' :: 'c' :: 'k'
        :: 'b' :: 'o' :: 'x' :: ':' :: (ds ++ (") todo").data)) from rfl]
    rw [hscan]
  have hclean : cleanCB altUnchecked
      (String.mk (("- [☐︎](checkbox:").data ++ (ds ++ (") todo").data))) =
      "todo" := by
    show (match (match (altUnchecked ('[' :: '☐' :: '︎' :: ']' :: '(' :: 'c'
            :: 'h' :: 'e' :: 'c' :: 'k' :: 'b' :: 'o' :: 'x' :: ':'
            :: (ds ++ (") todo").data))).map (fun r => r.dropWhile pyWs) with
          | some r => some r
          | none =>
            (altUnchecked (("- [☐︎](checkbox:").data ++ (ds ++ (") todo").data))).map
              (fun r => r.dropWhile pyWs)) with
      | some r => String.mk r
      | none => String.mk (("- [☐︎](checkbox:").data ++ (ds ++ (") todo").data))) =
      "todo"
    rw [halt]
    rfl
  have hmem : '☑' ∉ (("- [☐︎](checkbox:").data ++ (ds ++ (") todo").data)) := by
    intro hm
    rcases List.mem_append.mp hm with h1 | h1
    · exact absurd h1 (by decide)
    · rcases List.mem_append.mp h1 with h2 | h2
      · have := hdig '☑' h2
        exact absurd this (by decide)
      · exact absurd h2 (by decide)
  have hC : (("- [☐︎](checkbox:").data ++ (ds ++ (") todo").data)).contains '☑' =
      false := by
    cases hcc : (("- [☐︎](checkbox:").data ++ (ds ++ (") todo").data)).contains '☑'
    · rfl
    · exact absurd (by simpa using hcc) hmem
  have hun : processNonCode (String.mk (("- [☐︎](checkbox:").data ++
      (ds ++ (") todo").data))) = some (
      if (("- [☐︎](checkbox:").data ++ (ds ++ (") todo").data)).contains '☑' = true
      then "- [x] " ++ cleanCB altChecked
        (String.mk (("- [☐︎](checkbox:").data ++ (ds ++ (") todo").data)))
      else if (("- [☐︎](checkbox:").data ++ (ds ++ (") todo").data)).contains '☐' = true
      then "- [ ] " ++ cleanCB altUnchecked
        (String.mk (("- [☐︎](checkbox:").data ++ (ds ++ (") todo").data)))
      else String.mk (("- [☐︎](checkbox:").data ++ (ds ++ (") todo").data))) := rfl
  rw [hun, hC]
  rw [if_neg (by simp)]
  rw [show (("- [☐︎](checkbox:").data ++ (ds ++ (") todo").data)).contains '☐' =
    true from rfl]
  rw [if_pos rfl, hclean]
  rfl

/-- C3: rendering the source line `- [x] done` and recovering with no
intervening edits yields exactly `- [x] done`, and likewise `- [ ] todo`
yields `- [ ] todo`, for every checkbox index the render pass may have
assigned — the recovery pipeline applied to the generically converted
draft line (the checkbox glyph wrapped in its `checkbox:N` link, as the
renderer emits and the converter reproduces it) restores the canonical
checklist syntax. -/
theorem c3_checkbox_roundtrip (ds : List Char) (hne : ds ≠ [])
    (hdig : ∀ c ∈ ds, c.isDigit = true) :
    getMarkdownFromRendered ("- [☑︎](checkbox:" ++ String.mk ds ++ ") done\n")
      (originalCodeBlocks "- [x] done") (originalEmptyLines "- [x] done") [] =
      "- [x] done" ∧
    getMarkdownFromRendered ("- [☐︎](checkbox:" ++ String.mk ds ++ ") todo\n")
      (originalCodeBlocks "- [ ] todo") (originalEmptyLines "- [ ] todo") [] =
      "- [ ] todo" := by
  have hnl : ∀ c ∈ ds, ¬ (c = '\n') := by
    intro c hc he
    have := hdig c hc
    rw [he] at this
    exact absurd this (by decide)
  constructor
  · have hnl1 : '\n' ∉ (("- [☑︎](checkbox:").data ++ (ds ++ (") done").data)) := by
      intro hm
      rcases List.mem_append.mp hm with h1 | h1
      · exact absurd h1 (by decide)
      · rcases List.mem_append.mp h1 with h2 | h2
        · exact hnl '\n' h2 rfl
        · exact absurd h2 (by decide)
    have hdata : ("- [☑︎](checkbox:" ++ String.mk ds ++ ") done\n").data =
        (("- [☑︎](checkbox:").data ++ (ds ++ (") done").data)) ++ '\n' :: [] := by
      rw [String.data_append, String.data_append,
        show (String.mk ds).data = ds from rfl,
        show (") done\n" : String).data = (") done").data ++ ['\n'] from by decide]
      simp [List.append_assoc]
    have hsplit : splitNl ("- [☑︎](checkbox:" ++ String.mk ds ++ ") done\n") =
        [String.mk (("- [☑︎](checkbox:").data ++ (ds ++ (") done").data)), ""] := by
      unfold splitNl
      rw [hdata, splitNlChars_append [] _ hnl1]
      rfl
    have hlast : (("- [☑︎](checkbox:").data ++ (ds ++ (") done").data)).getLast? =
        some 'e' := by
      rw [getLast?_append_right _ _ (by
        intro hcon
        rcases List.append_eq_nil.mp hcon with ⟨_, h2⟩
        exact absurd h2 (by decide))]
      rw [getLast?_append_right _ _ (by decide)]
      decide
    have hps : pyStrip (String.mk (("- [☑︎](checkbox:").data ++
        (ds ++ (") done").data))) =
        String.mk (("- [☑︎](checkbox:").data ++ (ds ++ (") done").data)) := by
      unfold pyStrip
      rw [show (String.mk (("- [☑︎](checkbox:").data ++ (ds ++ (") done").data))).data =
        (("- [☑︎](checkbox:").data ++ (ds ++ (") done").data)) from rfl,
        pyStripChars_eq_self (("- [☑︎](checkbox:").data ++ (ds ++ (") done").data))
          '-' 'e' rfl rfl hlast rfl]
    have hloop : recoverLoop (originalCodeBlocks "- [x] done")
        [String.mk (("- [☑︎](checkbox:").data ++ (ds ++ (") done").data)), ""]
        false [] 0 = ["- [x] done", ""] := by
      rw [recoverLoop_cons, hps]
      rw [show (!false && startsWithStr (String.mk (("- [☑︎](checkbox:").data ++
        (ds ++ (") done").data))) "```") = false from rfl]
      rw [if_neg (by simp), if_neg (by simp), c3_line_checked ds hne hdig]
      rw [show recoverLoop (originalCodeBlocks "- [x] done") [""] false [] 0 = [""]
        from by decide]
    simp only [getMarkdownFromRendered, List.foldl_nil]
    rw [hsplit, hloop]
    decide
  · have hnl1 : '\n' ∉ (("- [☐︎](checkbox:").data ++ (ds ++ (") todo").data)) := by
      intro hm
      rcases List.mem_append.mp hm with h1 | h1
      · exact absurd h1 (by decide)
      · rcases List.mem_append.mp h1 with h2 | h2
        · exact hnl '\n' h2 rfl
        · exact absurd h2 (by decide)
    have hdata : ("- [☐︎](checkbox:" ++ String.mk ds ++ ") todo\n").data =
        (("- [☐︎](checkbox:").data ++ (ds ++ (") todo").data)) ++ '\n' :: [] := by
      rw [String.data_append, String.data_append,
        show (String.mk ds).data = ds from rfl,
        show (") todo\n" : String).data = (") todo").data ++ ['\n'] from by decide]
      simp [List.append_assoc]
    have hsplit : splitNl ("- [☐︎](checkbox:" ++ String.mk ds ++ ") todo\n") =
        [String.mk (("- [☐︎](checkbox:").data ++ (ds ++ (") todo").data)), ""] := by
      unfold splitNl
      rw [hdata, splitNlChars_append [] _ hnl1]
      rfl
    have hlast : (("- [☐︎](checkbox:").data ++ (ds ++ (") todo").data)).getLast? =
        some 'o' := by
      rw [getLast?_append_right _ _ (by
        intro hcon
        rcases List.append_eq_nil.mp hcon with ⟨_, h2⟩
        exact absurd h2 (by decide))]
      rw [getLast?_append_right _ _ (by decide)]
      decide
    have hps : pyStrip (String.mk (("- [☐︎](checkbox:").data ++
        (ds ++ (") todo").data))) =
        String.mk (("- [☐︎](checkbox:").data ++ (ds ++ (") todo").data)) := by
      unfold pyStrip
      rw [show (String.mk (("- [☐︎](checkbox:").data ++ (ds ++ (") todo").data))).data =
        (("- [☐︎](checkbox:").data ++ (ds ++ (") todo").data)) from rfl,
        pyStripChars_eq_self (("- [☐︎](checkbox:").data ++ (ds ++ (") todo").data))
          '-' 'o' rfl rfl hlast rfl]
    have hloop : recoverLoop (originalCodeBlocks "- [ ] todo")
        [String.mk (("- [☐︎](checkbox:").data ++ (ds ++ (") todo").data)), ""]
        false [] 0 = ["- [ ] todo", ""] := by
      rw [recoverLoop_cons, hps]
      rw [show (!false && startsWithStr (String.mk (("- [☐︎](checkbox:").data ++
        (ds ++ (") todo").data))) "```") = false from rfl]
      rw [if_neg (by simp), if_neg (by simp), c3_line_unchecked ds hne hdig]
      rw [show recoverLoop (originalCodeBlocks "- [ ] todo") [""] false [] 0 = [""]
        from by decide]
    simp only [getMarkdownFromRendered, List.foldl_nil]
    rw [hsplit, hloop]
    decide

/-- C3, witness at checkbox index 0. -/
theorem c3_checkbox_roundtrip_witness :
    getMarkdownFromRendered ("- [☑︎](checkbox:" ++ String.mk ['0'] ++ ") done\n")
      (originalCodeBlocks "- [x] done") (originalEmptyLines "- [x] done") [] =
      "- [x] done" ∧
    getMarkdownFromRendered ("- [☐︎](checkbox:" ++ String.mk ['0'] ++ ") todo\n")
      (originalCodeBlocks "- [ ] todo") (originalEmptyLines "- [ ] todo") [] =
      "- [ ] todo" :=
  c3_checkbox_roundtrip ['0'] (by decide) (by decide)

/-! ## Claim C1 -/

/-- Equation for the fence search at a cons cell. -/
lemma findTriple_cons (c : Char) (t : List Char) :
    findTriple (c :: t) =
      if isPrefCh fenceChars (c :: t) then some ([], t.drop 2)
      else
        match findTriple t with
        | some p => some (c :: p.1, p.2)
        | none => none := rfl

/-- In a backtick-free prefix followed by a fence, the earliest fence is
the explicit one. -/
lemma findTriple_append (xs ys : List Char) (hx : btick ∉ xs) :
    findTriple (xs ++ (btick :: btick :: btick :: ys)) = some (xs, ys) := by
  induction xs with
  | nil =>
    rw [List.nil_append, findTriple_cons, if_pos (by simp [fenceChars, isPrefCh])]
    rfl
  | cons x t ih =>
    have hbx : ¬ (btick = x) := fun he => hx (he ▸ List.mem_cons_self x t)
    rw [List.cons_append, findTriple_cons,
      if_neg (by simp [fenceChars, isPrefCh, hbx]),
      ih (fun hm => hx (List.mem_cons_of_mem _ hm))]

/-- Equation for the fence scanner at a cons cell. -/
lemma findFencesAux_succ_cons (f : Nat) (c : Char) (t : List Char) :
    findFencesAux (f + 1) (c :: t) =
      if isPrefCh fenceChars (c :: t) then
        match findTriple (t.drop 2) with
        | some (mid, rest) => (fenceChars ++ mid ++ fenceChars) :: findFencesAux f rest
        | none => findFencesAux f t
      else findFencesAux f t := rfl

/-- A backtick-free text contains no fenced block. -/
lemma findFencesAux_no_ticks : ∀ (f : Nat) (cs : List Char), btick ∉ cs →
    findFencesAux f cs = [] := by
  intro f
  induction f with
  | zero => intro cs _; rfl
  | succ f ih =>
    intro cs h
    cases cs with
    | nil => rfl
    | cons c t =>
      have hbc : ¬ (btick = c) := fun he => h (he ▸ List.mem_cons_self c t)
      rw [findFencesAux_succ_cons, if_neg (by simp [fenceChars, isPrefCh, hbc]),
        ih t (fun hm => h (List.mem_cons_of_mem _ hm))]

/-- The scanner on a single fenced block followed by backtick-free text
finds exactly that block. -/
lemma findFencesAux_block (f : Nat) (interior suffix : List Char)
    (hi : btick ∉ interior) (hs : btick ∉ suffix) :
    findFencesAux (f + 1)
        (btick :: btick :: btick :: (interior ++ (btick :: btick :: btick :: suffix))) =
      [btick :: btick :: btick :: (interior ++ [btick, btick, btick])] := by
  rw [findFencesAux_succ_cons, if_pos (by simp [fenceChars, isPrefCh])]
  rw [show ((btick :: btick :: (interior ++ (btick :: btick :: btick :: suffix))).drop 2) =
    interior ++ (btick :: btick :: btick :: suffix) from rfl]
  rw [findTriple_append interior suffix hi]
  show (fenceChars ++ interior ++ fenceChars) :: findFencesAux f suffix =
    [btick :: btick :: btick :: (interior ++ [btick, btick, btick])]
  rw [findFencesAux_no_ticks f suffix hs]
  rfl

/-- Equation for first-occurrence replacement at a cons cell. -/
lemma replaceFirstCh_cons (c : Char) (t old new : List Char) :
    replaceFirstCh (c :: t) old new =
      if isPrefCh old (c :: t) then new ++ (c :: t).drop old.length
      else c :: replaceFirstCh t old new := rfl

/-- Every list is a prefix of itself extended. -/
lemma isPrefCh_append_self : ∀ (xs ys : List Char), isPrefCh xs (xs ++ ys) = true := by
  intro xs
  induction xs with
  | nil => intro ys; rfl
  | cons x t ih =>
    intro ys
    rw [List.cons_append]
    show (x = x && isPrefCh t (t ++ ys)) = true
    simp [ih]

/-- Replacing the first occurrence of a leading pattern substitutes at the
front. -/
lemma replaceFirstCh_self_append (old suffix new : List Char) (h : old ≠ []) :
    replaceFirstCh (old ++ suffix) old new = new ++ suffix := by
  cases ho : old with
  | nil => exact absurd ho h
  | cons c t =>
    rw [List.cons_append, replaceFirstCh_cons,
      if_pos (by rw [← List.cons_append, ← ho]; exact isPrefCh_append_self old suffix)]
    rw [← List.cons_append, ← ho, List.drop_left]

/-- Equation for the blank-collapse scan outside a match. -/
lemma collapseGo_false_cons (c : Char) (cs : List Char) :
    collapseGo false (c :: cs) =
      if c = '\n' && (cs.takeWhile pyWs).contains '\n' then collapseGo true cs
      else c :: collapseGo false cs := rfl

/-- The blank-collapse scan passes a newline-free prefix through. -/
lemma collapseGo_append_no_nl (xs rest : List Char) (hx : '\n' ∉ xs) :
    collapseGo false (xs ++ rest) = xs ++ collapseGo false rest := by
  induction xs with
  | nil => rfl
  | cons x t ih =>
    have hxn : ¬ (x = '\n') := fun he => hx (he ▸ List.mem_cons_self x t)
    rw [List.cons_append, collapseGo_false_cons, if_neg (by simp [hxn]),
      ih (fun hm => hx (List.mem_cons_of_mem _ hm))]
    rfl

/-- Joining produces no backticks when no line has one. -/
lemma btick_not_mem_joinNlChars : ∀ (lls : List (List Char)),
    (∀ l ∈ lls, btick ∉ l) → btick ∉ joinNlChars lls := by
  intro lls
  induction lls with
  | nil => intro _ h; cases h
  | cons l rest ih =>
    intro h hm
    cases rest with
    | nil => exact h l (List.mem_cons_self _ _) hm
    | cons l2 r2 =>
      rw [show joinNlChars (l :: l2 :: r2) = l ++ '\n' :: joinNlChars (l2 :: r2)
        from rfl] at hm
      rcases List.mem_append.mp hm with h1 | h1
      · exact h l (List.mem_cons_self _ _) h1
      · rcases List.mem_cons.mp h1 with h2 | h2
        · exact absurd h2 (by decide)
        · exact ih (fun x hx => h x (List.mem_cons_of_mem _ hx)) h2

/-- Equation for joining onto a nonempty tail. -/
lemma joinNlChars_cons_ne (l : List Char) (rest : List (List Char)) (h : rest ≠ []) :
    joinNlChars (l :: rest) = l ++ '\n' :: joinNlChars rest := by
  cases rest with
  | nil => exact absurd rfl h
  | cons a t => rfl

/-- Splitting off the final line of a join. -/
lemma joinNlChars_append_last : ∀ (X : List (List Char)) (z : List Char),
    joinNlChars (X ++ [z]) = joinNlChars (X ++ [[]]) ++ z := by
  intro X
  induction X with
  | nil => intro z; rfl
  | cons x t ih =>
    intro z
    cases t with
    | nil => simp [joinNlChars]
    | cons y r =>
      rw [show (x :: y :: r) ++ [z] = x :: ((y :: r) ++ [z]) from rfl,
        show joinNlChars (x :: ((y :: r) ++ [z])) =
          x ++ '\n' :: joinNlChars ((y :: r) ++ [z]) from rfl,
        ih z,
        show (x :: y :: r) ++ [[]] = x :: ((y :: r) ++ [[]]) from rfl,
        show joinNlChars (x :: ((y :: r) ++ [[]])) =
          x ++ '\n' :: joinNlChars ((y :: r) ++ [[]]) from rfl]
      simp

/-- The character shape of a source that is exactly one fenced block. -/
lemma src_data_shape (lang : String) (body : List String) :
    (joinNl (("```" ++ lang) :: (body ++ ["```"]))).data =
      btick :: btick :: btick ::
        ((lang.data ++ '\n' :: joinNlChars ((body.map String.data) ++ [[]])) ++
          [btick, btick, btick]) := by
  unfold joinNl
  rw [show (String.mk (joinNlChars ((("```" ++ lang) :: (body ++ ["```"])).map
    String.data))).data =
    joinNlChars ((("```" ++ lang) :: (body ++ ["```"])).map String.data) from rfl]
  rw [List.map_cons, List.map_append,
    joinNlChars_cons_ne _ _ (by simp),
    show (["```"].map String.data) = [("```" : String).data] from rfl,
    joinNlChars_append_last,
    String.data_append,
    show ("```" : String).data = [btick, btick, btick] from by decide]
  simp [List.append_assoc]

/-- Dropping a satisfied prefix. -/
lemma dropWhile_append_all (xs ys : List Char) (h : ∀ c ∈ xs, pyWs c = true) :
    (xs ++ ys).dropWhile pyWs = ys.dropWhile pyWs := by
  induction xs with
  | nil => rfl
  | cons x t ih =>
    rw [List.cons_append, List.dropWhile_cons, h x (List.mem_cons_self x t)]
    simp only [if_true]
    exact ih (fun c hc => h c (List.mem_cons_of_mem _ hc))

/-- Stripping removes exactly a trailing whitespace run when the payload
starts and ends with non-whitespace. -/
lemma pyStripChars_append_ws (cs ws2 : List Char) (c1 c2 : Char)
    (h1 : cs.head? = some c1) (hw1 : pyWs c1 = false)
    (h2 : cs.getLast? = some c2) (hw2 : pyWs c2 = false)
    (hws : ∀ c ∈ ws2, pyWs c = true) :
    pyStripChars (cs ++ ws2) = cs := by
  unfold pyStripChars
  have hd : (cs ++ ws2).dropWhile pyWs = cs ++ ws2 := by
    cases cs with
    | nil => simp at h1
    | cons a t =>
      have ha : a = c1 := by simpa using h1
      rw [List.cons_append, List.dropWhile_cons, ha, hw1]
      simp
  rw [hd, List.reverse_append,
    dropWhile_append_all ws2.reverse cs.reverse
      (fun c hc => hws c (List.mem_reverse.mp hc))]
  have hrev : cs.reverse.dropWhile pyWs = cs.reverse := by
    cases hr : cs.reverse with
    | nil => rfl
    | cons a t =>
      have ha : cs.reverse.head? = some a := by rw [hr]; rfl
      rw [List.head?_reverse] at ha
      have ha2 : a = c2 := by
        rw [h2] at ha
        simpa using ha.symm
      rw [List.dropWhile_cons, ha2, hw2]
      simp [← hr]
  rw [hrev, List.reverse_reverse]

/-- Inside a fenced region, lines that do not close the fence are
accumulated and skipped. -/
lemma recoverLoop_code_skip (blocks : List String) (rest : List String) (idx : Nat) :
    ∀ (ml cl : List String), (∀ l ∈ ml, ¬ (pyStrip l = "```")) →
    recoverLoop blocks (ml ++ rest) true cl idx =
      recoverLoop blocks rest true (cl ++ ml) idx := by
  intro ml
  induction ml with
  | nil => intro cl _; rw [List.nil_append, List.append_nil]
  | cons m t ih =>
    intro cl h
    rw [List.cons_append, recoverLoop_cons]
    rw [if_neg (by simp), if_pos rfl, if_neg (h m (List.mem_cons_self m t))]
    rw [ih (cl ++ [m]) (fun l hl => h l (List.mem_cons_of_mem _ hl))]
    simp

/-- Restoration of a list of blank lines stays blank. -/
lemma restoreLines_all_blank (es : List Nat) :
    ∀ (tl : List String), (∀ x ∈ tl, x = "") →
    ∀ idx, ∀ x ∈ restoreLines es idx tl, x = "" := by
  intro tl
  induction tl with
  | nil =>
    intro _ idx x hx
    rw [restoreLines_nil] at hx
    exact List.eq_of_mem_replicate hx
  | cons a t ih =>
    intro htl idx x hx
    rw [restoreLines_cons] at hx
    rcases List.mem_append.mp hx with h1 | h1
    · exact List.eq_of_mem_replicate h1
    · rcases List.mem_cons.mp h1 with h2 | h2
      · exact h2.trans (htl a (List.mem_cons_self a t))
      · exact ih (fun y hy => htl y (List.mem_cons_of_mem _ hy)) _ x h2

/-- Restoration on the protected placeholder produces the placeholder
followed by blank lines only. -/
lemma restore_ph_blanks (es : List Nat) (h0 : 0 ∉ es) (p : String)
    (tl : List String) (htl : ∀ x ∈ tl, x = "") :
    ∃ bl : List String, (∀ x ∈ bl, x = "") ∧
      restoreLines es 0 (p :: tl) = p :: bl := by
  have hb0 : blankRun es 0 = 0 := by
    rw [blankRun_unfold, if_neg (by simpa using h0)]
  rw [restoreLines_cons, hb0]
  exact ⟨restoreLines es (0 + 0 + 1) tl,
    restoreLines_all_blank es tl htl _, by simp⟩

/-- Joining a line onto blank lines appends one newline per blank line. -/
lemma joinNlChars_blanks : ∀ (ls : List (List Char)), (∀ l ∈ ls, l = []) →
    ∀ (x : List Char), joinNlChars (x :: ls) = x ++ List.replicate ls.length '\n' := by
  intro ls
  induction ls with
  | nil => intro _ x; simp [joinNlChars]
  | cons a t ih =>
    intro h x
    rw [joinNlChars_cons_ne x (a :: t) (by simp)]
    rw [ih (fun l hl => h l (List.mem_cons_of_mem _ hl)) a]
    rw [h a (List.mem_cons_self a t)]
    simp [List.replicate_succ]

/-- Unfolding of the recovery pipeline when no underline snapshot was
taken. -/
lemma gmfr_nil_uls (md : String) (blocks : List String) (empties : List Nat) :
    getMarkdownFromRendered md blocks empties [] =
      pyStrip
        ((codeBlocksOf (joinNl (recoverLoop blocks (splitNl md) false [] 0))).enum.foldl
          (fun r p => replaceFirst r (phName p.1) p.2)
          (if empties.isEmpty then
            collapseNl
              ((codeBlocksOf (joinNl (recoverLoop blocks (splitNl md) false [] 0))).enum.foldl
                (fun r p => replaceFirst r p.2 (phName p.1))
                (joinNl (recoverLoop blocks (splitNl md) false [] 0)))
          else
            joinNl (restoreLines empties 0 (splitNl (collapseNl
              ((codeBlocksOf (joinNl (recoverLoop blocks (splitNl md) false [] 0))).enum.foldl
                (fun r p => replaceFirst r p.2 (phName p.1))
                (joinNl (recoverLoop blocks (splitNl md) false [] 0)))))))) := rfl

/-- The snapshot regex on a single fence block plus backtick-free padding
finds exactly that block. -/
lemma codeBlocksOf_block_pad (blockStr : String) (interior tailNl : List Char)
    (hbs : blockStr.data = btick :: btick :: btick :: (interior ++ [btick, btick, btick]))
    (hi : btick ∉ interior) (hsuf : btick ∉ tailNl) :
    codeBlocksOf (String.mk (blockStr.data ++ tailNl)) = [blockStr] := by
  show (findFencesAux (blockStr.data ++ tailNl).length
    (blockStr.data ++ tailNl)).map String.mk = [blockStr]
  rw [hbs]
  rw [List.cons_append, List.cons_append, List.cons_append, List.append_assoc]
  rw [show [btick, btick, btick] ++ tailNl = btick :: btick :: btick :: tailNl from rfl]
  rw [List.length_cons]
  rw [findFencesAux_block _ interior tailNl hi hsuf]
  rw [← hbs]
  rfl

/-- Once the recovery loop has emitted the snapshot block (with at most a
trailing blank line), protection, collapse, restoration, unprotection and
the final strip return the block unchanged. -/
lemma c1_post (blockStr : String) (interior : List Char)
    (hbs : blockStr.data = btick :: btick :: btick :: (interior ++ [btick, btick, btick]))
    (hi : btick ∉ interior)
    (empties : List Nat) (h0 : 0 ∉ empties)
    (tailNl : List Char) (htail : tailNl = [] ∨ tailNl = ['\n']) :
    pyStrip
      ((codeBlocksOf (String.mk (blockStr.data ++ tailNl))).enum.foldl
        (fun r p => replaceFirst r (phName p.1) p.2)
        (if empties.isEmpty then
          collapseNl
            ((codeBlocksOf (String.mk (blockStr.data ++ tailNl))).enum.foldl
              (fun r p => replaceFirst r p.2 (phName p.1))
              (String.mk (blockStr.data ++ tailNl)))
        else
          joinNl (restoreLines empties 0 (splitNl (collapseNl
            ((codeBlocksOf (String.mk (blockStr.data ++ tailNl))).enum.foldl
              (fun r p => replaceFirst r p.2 (phName p.1))
              (String.mk (blockStr.data ++ tailNl)))))))) = blockStr := by
  have hne : blockStr.data ≠ [] := by rw [hbs]; simp
  have hsuf : btick ∉ tailNl := by
    rcases htail with rfl | rfl
    · simp
    · decide
  have hcb := codeBlocksOf_block_pad blockStr interior tailNl hbs hi hsuf
  rw [hcb]
  have hfold1 : ([blockStr].enum).foldl (fun r p => replaceFirst r p.2 (phName p.1))
      (String.mk (blockStr.data ++ tailNl)) = String.mk ((phName 0).data ++ tailNl) := by
    show String.mk (replaceFirstCh (blockStr.data ++ tailNl) blockStr.data (phName 0).data) =
      String.mk ((phName 0).data ++ tailNl)
    rw [replaceFirstCh_self_append blockStr.data tailNl (phName 0).data hne]
  rw [hfold1]
  have hph_nl : '\n' ∉ (phName 0).data := by decide
  have hcoll : collapseNl (String.mk ((phName 0).data ++ tailNl)) =
      String.mk ((phName 0).data ++ tailNl) := by
    show String.mk (collapseGo false ((phName 0).data ++ tailNl)) = _
    rw [collapseGo_append_no_nl _ _ hph_nl]
    rcases htail with rfl | rfl
    · rfl
    · rfl
  rw [hcoll]
  have hsplit : splitNl (String.mk ((phName 0).data ++ tailNl)) =
      (phName 0) :: (tailNl.map fun _ => "") := by
    rcases htail with rfl | rfl
    · show (splitNlChars ((phName 0).data ++ [])).map String.mk = [phName 0]
      rw [List.append_nil, splitNlChars_no_nl _ hph_nl]
      rfl
    · show (splitNlChars ((phName 0).data ++ ['\n'])).map String.mk = [phName 0, ""]
      rw [splitNlChars_append [] (phName 0).data hph_nl]
      rfl
  obtain ⟨W3, hW3, hres3⟩ :
      ∃ W, (∀ c ∈ W, pyWs c = true) ∧
        (if empties.isEmpty then String.mk ((phName 0).data ++ tailNl)
         else joinNl (restoreLines empties 0
           (splitNl (String.mk ((phName 0).data ++ tailNl))))) =
          String.mk ((phName 0).data ++ W) := by
    by_cases hE : empties.isEmpty = true
    · refine ⟨tailNl, ?_, by rw [if_pos hE]⟩
      rcases htail with rfl | rfl
      · decide
      · decide
    · obtain ⟨bl, hbl, heq⟩ := restore_ph_blanks empties h0 (phName 0)
        (tailNl.map fun _ => "")
        (by intro x hx; rcases List.mem_map.mp hx with ⟨y, hy, rfl⟩; rfl)
      refine ⟨List.replicate bl.length '\n', ?_, ?_⟩
      · intro c hc
        rw [show c = '\n' from List.eq_of_mem_replicate hc]
        decide
      · rw [if_neg hE, hsplit, heq]
        show String.mk (joinNlChars ((phName 0).data :: (bl.map String.data))) =
          String.mk ((phName 0).data ++ List.replicate bl.length '\n')
        rw [joinNlChars_blanks (bl.map String.data)
          (by intro l hl; rcases List.mem_map.mp hl with ⟨y, hy, rfl⟩; rw [hbl y hy])
          (phName 0).data]
        rw [List.length_map]
  rw [hres3]
  have hfold2 : ([blockStr].enum).foldl (fun r p => replaceFirst r (phName p.1) p.2)
      (String.mk ((phName 0).data ++ W3)) = String.mk (blockStr.data ++ W3) := by
    show String.mk (replaceFirstCh ((phName 0).data ++ W3) (phName 0).data blockStr.data) =
      String.mk (blockStr.data ++ W3)
    rw [replaceFirstCh_self_append (phName 0).data W3 blockStr.data (by decide)]
  rw [hfold2]
  have hhead : blockStr.data.head? = some btick := by rw [hbs]; rfl
  have hlast : blockStr.data.getLast? = some btick := by
    rw [hbs]
    rw [show btick :: btick :: btick :: (interior ++ [btick, btick, btick]) =
      (btick :: btick :: btick :: interior) ++ [btick, btick, btick] from by simp]
    rw [getLast?_append_right _ _ (by simp)]
    decide
  show String.mk (pyStripChars (blockStr.data ++ W3)) = blockStr
  rw [pyStripChars_append_ws blockStr.data W3 btick btick hhead (by decide)
    hlast (by decide) hW3]

/-- C1: code-block verbatim preservation.  For a source that is exactly one
fenced code block — opening fence with an arbitrary newline- and
backtick-free language tag, a body of arbitrary newline- and backtick-free
lines (arbitrary leading whitespace and mixed tabs/spaces included), and
the closing fence — entering rendered mode takes the code-block and
blank-line snapshots, and recovering the generically converted draft (an
opening-fence line, arbitrarily mangled interior lines none of which strips
to a bare closing fence, the closing fence, and an optional trailing blank
line) returns the original source byte-identically, fence markers and
language tag included: the fenced region is replaced by the snapshot entry
and the surrounding passes leave it untouched. -/
theorem c1_code_block_roundtrip
    (lang : String) (body mangled : List String) (draftOpen : String)
    (trail : List String)
    (hlang1 : '\n' ∉ lang.data) (hlang2 : btick ∉ lang.data)
    (hbody : ∀ l ∈ body, '\n' ∉ l.data ∧ btick ∉ l.data)
    (hopen1 : '\n' ∉ draftOpen.data)
    (hopen2 : startsWithStr (pyStrip draftOpen) "```" = true)
    (hmang : ∀ l ∈ mangled, '\n' ∉ l.data ∧ ¬ (pyStrip l = "```"))
    (htrail : trail = [] ∨ trail = [""]) :
    getMarkdownFromRendered (joinNl (draftOpen :: (mangled ++ ("```" :: trail))))
      (originalCodeBlocks (joinNl (("```" ++ lang) :: (body ++ ["```"]))))
      (originalEmptyLines (joinNl (("```" ++ lang) :: (body ++ ["```"])))) [] =
    joinNl (("```" ++ lang) :: (body ++ ["```"])) := by
  have hsrc : (joinNl (("```" ++ lang) :: (body ++ ["```"]))).data =
      btick :: btick :: btick ::
        ((lang.data ++ '\n' :: joinNlChars ((body.map String.data) ++ [[]])) ++
          [btick, btick, btick]) := src_data_shape lang body
  have hi : btick ∉ lang.data ++ '\n' :: joinNlChars ((body.map String.data) ++ [[]]) := by
    intro hm
    rcases List.mem_append.mp hm with h1 | h1
    · exact hlang2 h1
    · rcases List.mem_cons.mp h1 with h2 | h2
      · exact absurd h2 (by decide)
      · refine btick_not_mem_joinNlChars _ ?_ h2
        intro l hl
        rcases List.mem_append.mp hl with ha | ha
        · rcases List.mem_map.mp ha with ⟨x, hx, rfl⟩
          exact (hbody x hx).2
        · rcases List.mem_singleton.mp ha with rfl
          intro hc
          cases hc
  have hblocks : originalCodeBlocks (joinNl (("```" ++ lang) :: (body ++ ["```"]))) =
      [joinNl (("```" ++ lang) :: (body ++ ["```"]))] := by
    have h1 := codeBlocksOf_block_pad (joinNl (("```" ++ lang) :: (body ++ ["```"])))
      (lang.data ++ '\n' :: joinNlChars ((body.map String.data) ++ [[]])) [] hsrc hi
      (by simp)
    rw [List.append_nil] at h1
    exact h1
  have hsplitsrc : splitNl (joinNl (("```" ++ lang) :: (body ++ ["```"]))) =
      ("```" ++ lang) :: (body ++ ["```"]) := by
    apply splitNl_joinNl
    · simp
    · intro l hl
      rcases List.mem_cons.mp hl with rfl | h1
      · intro hm
        rw [String.data_append] at hm
        rcases List.mem_append.mp hm with ha | ha
        · exact absurd ha (by decide)
        · exact hlang1 ha
      · rcases List.mem_append.mp h1 with ha | ha
        · exact (hbody l ha).1
        · rcases List.mem_singleton.mp ha with rfl
          decide
  have h0 : 0 ∉ originalEmptyLines (joinNl (("```" ++ lang) :: (body ++ ["```"]))) := by
    intro hm
    unfold originalEmptyLines at hm
    rw [hsplitsrc] at hm
    unfold emptyIdxsFrom at hm
    have hbl : ¬ (pyStrip ("```" ++ lang) = "") := by
      intro hc
      have hdata : pyStripChars (("```" ++ lang) : String).data = [] :=
        congrArg String.data hc
      refine pyStripChars_ne_nil _ btick ?_ (by decide) hdata
      rw [String.data_append]
      exact List.mem_append_left _ (by decide)
    rw [if_neg hbl] at hm
    rcases List.mem_append.mp hm with h1 | h1
    · cases h1
    · have := mem_ge_emptyIdxsFrom _ 1 0 h1
      omega
  have hmd : splitNl (joinNl (draftOpen :: (mangled ++ ("```" :: trail)))) =
      draftOpen :: (mangled ++ ("```" :: trail)) := by
    apply splitNl_joinNl
    · simp
    · intro l hl
      rcases List.mem_cons.mp hl with rfl | h1
      · exact hopen1
      · rcases List.mem_append.mp h1 with ha | ha
        · exact (hmang l ha).1
        · rcases List.mem_cons.mp ha with rfl | hb
          · decide
          · rcases htrail with rfl | rfl
            · cases hb
            · rcases List.mem_singleton.mp hb with rfl
              decide
  have htrloop : recoverLoop [joinNl (("```" ++ lang) :: (body ++ ["```"]))]
      trail false [] 1 = trail := by
    rcases htrail with rfl | rfl
    · rfl
    · rfl
  have hloop : recoverLoop [joinNl (("```" ++ lang) :: (body ++ ["```"]))]
      (draftOpen :: (mangled ++ ("```" :: trail))) false [] 0 =
      joinNl (("```" ++ lang) :: (body ++ ["```"])) :: trail := by
    rw [recoverLoop_cons, if_pos (by simpa using hopen2)]
    rw [recoverLoop_code_skip _ ("```" :: trail) 0 mangled [draftOpen]
      (fun l hl => (hmang l hl).2)]
    rw [recoverLoop_cons]
    rw [if_neg (by decide)]
    rw [if_pos rfl]
    rw [if_pos (by decide : pyStrip ("```" : String) = "```")]
    show joinNl (("```" ++ lang) :: (body ++ ["```"])) ::
      recoverLoop [joinNl (("```" ++ lang) :: (body ++ ["```"]))] trail false [] 1 =
      joinNl (("```" ++ lang) :: (body ++ ["```"])) :: trail
    rw [htrloop]
  have hjoin : ∃ tailNl, (tailNl = [] ∨ tailNl = ['\n']) ∧
      joinNl (joinNl (("```" ++ lang) :: (body ++ ["```"])) :: trail) =
        String.mk ((joinNl (("```" ++ lang) :: (body ++ ["```"]))).data ++ tailNl) := by
    rcases htrail with rfl | rfl
    · exact ⟨[], Or.inl rfl, by rw [List.append_nil]; rfl⟩
    · exact ⟨['\n'], Or.inr rfl, rfl⟩
  obtain ⟨tailNl, htail2, hjeq⟩ := hjoin
  rw [gmfr_nil_uls, hblocks, hmd, hloop, hjeq]
  exact c1_post _ _ hsrc hi _ h0 tailNl htail2

/-- C1, witness: the source consisting of the fenced block with language
tag `py` and body line `"\t  x"` (a tab followed by two spaces) round-trips
through the recovery of the draft `"```py\njunk\n```\n"`. -/
theorem c1_code_block_roundtrip_witness :
    getMarkdownFromRendered (joinNl ("```py" :: (["junk"] ++ ("```" :: [""]))))
      (originalCodeBlocks (joinNl (("```" ++ "py") :: (["\t  x"] ++ ["```"]))))
      (originalEmptyLines (joinNl (("```" ++ "py") :: (["\t  x"] ++ ["```"])))) [] =
    joinNl (("```" ++ "py") :: (["\t  x"] ++ ["```"])) :=
  c1_code_block_roundtrip "py" ["\t  x"] ["junk"] "```py" [""]
    (by decide) (by decide) (by decide) (by decide) (by decide) (by decide)
    (Or.inr rfl)

end StickyNote
